import Mathlib

/-!
Verification development for the SymSolver equation-solving engine
(`solver/engine.py`, `solver/numerical.py`, `solver/substitution.py`).

The engine manipulates SymPy expressions.  For the linear fragment the
claims are about, a parsed side of a single-variable equation is an exact
rational-linear polynomial `a·x + b`; we embed it as the pair `(a, b)` over
`ℚ` (SymPy's exact rationals).  Display strings are embedded by composing
SymPy's printer (`str`) with the engine's regex passes, specialised to the
shapes the engine actually prints (rationals and linear polynomials), and
the raw-input formatting passes of `_format_input_str` are embedded as
character-level scanners implementing the same regular-expression
substitutions.  Floating-point values of the numerical backend are
modelled by exact rationals; the `1e-10` comparison tolerance is kept.
-/

namespace SymSolver

/-- A proof/derivation step.  The Python dict also carries an
`explanation` prose field and a `step_number`; the claims only inspect
`description` and `expression`, so only those are embedded. -/
structure Step where
  description : String
  expression : String
deriving Repr, DecidableEq

/-- The trail (result dict) of a solve call.  `validation_status` embeds
`summary["validation_status"]`: `none` when the summary dict carries no
such key (as in all of `engine.py`'s symbolic summaries), `some s`
otherwise. -/
structure Trail where
  steps : List Step
  final_answer : String
  verification_steps : List Step
  validation_status : Option String
  nonlinear_education : Bool := false
deriving Repr, DecidableEq

/-- Superscript translation table of `_SUPERSCRIPT` /
`_to_superscript`. -/
def toSuperChar (c : Char) : Char :=
  if c = '0' then '⁰' else if c = '1' then '¹' else if c = '2' then '²'
  else if c = '3' then '³' else if c = '4' then '⁴' else if c = '5' then '⁵'
  else if c = '6' then '⁶' else if c = '7' then '⁷' else if c = '8' then '⁸'
  else if c = '9' then '⁹' else if c = '+' then '⁺' else if c = '-' then '⁻'
  else if c = '/' then 'ᐟ' else if c = '(' then '⁽' else if c = ')' then '⁾'
  else c

/-- Embedding of `_to_superscript`. -/
def to_superscript (s : String) : String :=
  String.mk (s.data.map toSuperChar)

/-- Embedding of `_frac`: the stacked-fraction marker
`⟦numerator|denominator⟧`. -/
def fracMark (num den : String) : String :=
  "⟦" ++ num ++ "|" ++ den ++ "⟧"

/-- SymPy `str` of an exact `Rational`: `"p"` when the denominator is 1,
otherwise `"p/q"`. -/
def ratStr (q : ℚ) : String :=
  if q.den = 1 then toString q.num
  else toString q.num ++ "/" ++ toString (q.den : ℤ)

/-- Result of `_format_expr` on a pure rational: `str` prints `p` or
`p/q`, and the simple-fraction regex pass turns `p/q` into the stacked
marker `⟦p|q⟧`.  (`_normalize_spacing` is the identity on these.) -/
def formatExprRat (q : ℚ) : String :=
  if q.den = 1 then toString q.num
  else fracMark (toString q.num) (toString (q.den : ℤ))

/-- Result of `_format_expr_plain` on a pure rational: like
`formatExprRat` but without fraction markers. -/
def formatExprPlainRat (q : ℚ) : String :=
  ratStr q

/-- A parsed side of a single-variable linear equation: the SymPy
expression `a·x + b` with exact rational coefficients (the canonical
expanded form the engine works on). -/
structure LinExpr where
  a : ℚ
  b : ℚ
deriving Repr, DecidableEq

/-- Value of the side at `x = v`. -/
def LinExpr.eval (e : LinExpr) (v : ℚ) : ℚ :=
  e.a * v + e.b

/-- SymPy `str` of the bare variable term `a·x` pushed through
`_format_expr`: `str(3*x/2) = "3*x/2"`, the `(\d)\*([A-Za-z])` pass gives
`"3x/2"`, and the simple-fraction pass yields `⟦3x|2⟧`; integral
coefficients print as `"3x"`, `"x"`, `"-x"`. -/
def formatXTerm (a : ℚ) : String :=
  let numPart : String :=
    if a.num = 1 then "x" else if a.num = -1 then "-x"
    else toString a.num ++ "x"
  if a.den = 1 then numPart
  else fracMark numPart (toString (a.den : ℤ))

/-- Plain (`_format_expr_plain`) rendering of the term `a·x`: same but the
fraction keeps the `/`. -/
def formatXTermPlain (a : ℚ) : String :=
  let numPart : String :=
    if a.num = 1 then "x" else if a.num = -1 then "-x"
    else toString a.num ++ "x"
  if a.den = 1 then numPart
  else numPart ++ "/" ++ toString (a.den : ℤ)

/-- Embedding of `_format_expr` on a linear polynomial `a·x + b` (SymPy
prints the degree-1 term first; a negative constant prints with a binary
minus). -/
def formatLin (e : LinExpr) : String :=
  if e.a = 0 then formatExprRat e.b
  else if e.b = 0 then formatXTerm e.a
  else if e.b > 0 then formatXTerm e.a ++ " + " ++ formatExprRat e.b
  else formatXTerm e.a ++ " - " ++ formatExprRat (-e.b)

/-- Embedding of `_format_expr_plain` on a linear polynomial. -/
def formatLinPlain (e : LinExpr) : String :=
  if e.a = 0 then formatExprPlainRat e.b
  else if e.b = 0 then formatXTermPlain e.a
  else if e.b > 0 then formatXTermPlain e.a ++ " + " ++ formatExprPlainRat e.b
  else formatXTermPlain e.a ++ " - " ++ formatExprPlainRat (-e.b)

/-- Number of arguments `Add.make_args` returns for a parsed flat linear
side: two when both the variable term and the constant are present,
otherwise one (also for the zero expression). -/
def termCount (e : LinExpr) : Nat :=
  if e.a ≠ 0 ∧ e.b ≠ 0 then 2 else 1

/-- Longest prefix of characters satisfying `p`, with the rest. -/
def takeRun (p : Char → Bool) : List Char → List Char × List Char
  | [] => ([], [])
  | c :: cs =>
    if p c then
      let r := takeRun p cs
      (c :: r.1, r.2)
    else ([], c :: cs)

/-- Whitespace trim on character lists (Python `str.strip` /
`String.trim`), kept as an explicit list computation. -/
def trimChars (cs : List Char) : List Char :=
  ((cs.dropWhile Char.isWhitespace).reverse.dropWhile Char.isWhitespace).reverse

/-- Whitespace trim on strings. -/
def trimStr (s : String) : String :=
  String.mk (trimChars s.data)

/-- Leftmost, non-overlapping rewrite driver for the engine's `re.sub`
passes: at each position try the matcher; on a match emit the replacement
and continue after the consumed input, otherwise keep one character.  Each
matcher consumes at least one character, so fuel equal to the input length
suffices. -/
def scanRewrite (step : List Char → Option (List Char × List Char)) :
    Nat → List Char → List Char
  | 0, cs => cs
  | _ + 1, [] => []
  | fuel + 1, c :: cs =>
    match step (c :: cs) with
    | some (rep, rest) => rep ++ scanRewrite step fuel rest
    | none => c :: scanRewrite step fuel cs

/-- Run a rewrite pass over a whole string. -/
def runPass (step : List Char → Option (List Char × List Char))
    (cs : List Char) : List Char :=
  scanRewrite step cs.length cs

/-- Character class `[A-Za-z0-9·]` used by the fraction regexes. -/
def tokenChar (c : Char) : Bool :=
  c.isAlpha || c.isDigit || c = '·'

/-- Matcher for `\^\(([^)]+)\)` (caret exponent with parentheses):
replaced by the superscript of the group. -/
def caretParenStep (cs : List Char) : Option (List Char × List Char) :=
  match cs with
  | '^' :: '(' :: rest =>
    let r := takeRun (fun c => c ≠ ')') rest
    match r.1, r.2 with
    | [], _ => none
    | inside, ')' :: rest2 => some (inside.map toSuperChar, rest2)
    | _, _ => none
  | _ => none

/-- Matcher for `\^(-?\d+)` (plain caret exponent). -/
def caretNumStep (cs : List Char) : Option (List Char × List Char) :=
  match cs with
  | '^' :: '-' :: rest =>
    let r := takeRun Char.isDigit rest
    match r.1 with
    | [] => none
    | ds => some (('-' :: ds).map toSuperChar, r.2)
  | '^' :: rest =>
    let r := takeRun Char.isDigit rest
    match r.1 with
    | [] => none
    | ds => some (ds.map toSuperChar, r.2)
  | _ => none

/-- Matcher for `(\d)\*([A-Za-z])` (drop `*` between digit and letter). -/
def digitStarLetterStep (cs : List Char) : Option (List Char × List Char) :=
  match cs with
  | d :: '*' :: l :: rest =>
    if d.isDigit && l.isAlpha then some ([d, l], rest) else none
  | _ => none

/-- Matcher for `\)\*([A-Za-z])` (drop `*` between `)` and letter). -/
def parenStarLetterStep (cs : List Char) : Option (List Char × List Char) :=
  match cs with
  | ')' :: '*' :: l :: rest =>
    if l.isAlpha then some ([')', l], rest) else none
  | _ => none

/-- Matcher for `\(([^)]+)\)/([A-Za-z0-9·]+)` (parenthesised numerator
over a token denominator, turned into a stacked-fraction marker). -/
def parenFracStep (cs : List Char) : Option (List Char × List Char) :=
  match cs with
  | '(' :: rest =>
    let r := takeRun (fun c => c ≠ ')') rest
    match r.1, r.2 with
    | [], _ => none
    | inside, ')' :: '/' :: rest2 =>
      let d := takeRun tokenChar rest2
      match d.1 with
      | [] => none
      | den => some ((fracMark (String.mk inside) (String.mk den)).data, d.2)
    | _, _ => none
  | _ => none

/-- Matcher for `(-?[A-Za-z0-9·]+)/([A-Za-z0-9·]+)` (simple fraction into
a stacked-fraction marker). -/
def simpleFracStep (cs : List Char) : Option (List Char × List Char) :=
  let core := fun (neg : Bool) (l : List Char) =>
    let n := takeRun tokenChar l
    match n.1, n.2 with
    | [], _ => none
    | numRun, '/' :: rest2 =>
      let d := takeRun tokenChar rest2
      match d.1 with
      | [] => none
      | den =>
        let numStr := (if neg then "-" else "") ++ String.mk numRun
        some ((fracMark numStr (String.mk den)).data, d.2)
    | _, _ => none
  match cs with
  | '-' :: rest => core true rest
  | _ => core false cs

/-- Matcher for `(-?[A-Za-z0-9]+)/(\d+)`-style passes of `_format_expr`
are specialised elsewhere; this is the `s.replace('*', '·')` map. -/
def starToDot (cs : List Char) : List Char :=
  cs.map (fun c => if c = '*' then '·' else c)

/-- Prefix-strip helper: `some rest` when `pat` is a prefix of `cs`. -/
def stripPre : List Char → List Char → Option (List Char)
  | [], cs => some cs
  | _ :: _, [] => none
  | p :: ps, c :: cs => if p = c then stripPre ps cs else none

/-- Matcher replacing a literal substring (Python `str.replace`). -/
def literalStep (pat rep : String) (cs : List Char) :
    Option (List Char × List Char) :=
  match stripPre pat.data cs with
  | some rest => if pat.data.isEmpty then none else some (rep.data, rest)
  | none => none

/-- Embedding of the `pi` → `π` substitution of `_prettify_symbols`, with
its letter lookarounds evaluated on the original text. -/
def piPass : Nat → Option Char → List Char → List Char
  | 0, _, cs => cs
  | _ + 1, _, [] => []
  | fuel + 1, prev, 'p' :: 'i' :: rest =>
    let prevOk := match prev with
      | none => true
      | some c => !c.isAlpha
    let nextOk := match rest with
      | [] => true
      | c :: _ => !c.isAlpha
    if prevOk && nextOk then 'π' :: piPass fuel (some 'i') rest
    else 'p' :: piPass fuel (some 'p') ('i' :: rest)
  | fuel + 1, _, c :: cs => c :: piPass fuel (some c) cs

/-- Embedding of `_prettify_symbols`. -/
def prettifySymbols (cs : List Char) : List Char :=
  let s1 := piPass cs.length none cs
  let s2 := runPass (literalStep "sqrt(" "√(") s1
  let s3 := runPass (literalStep ("sqrt ⟦") ("√⟦")) s2
  runPass (literalStep ("sqrt⟦") ("√⟦")) s3

/-- Characters after which `-` is binary (`_BINARY_AFTER`). -/
def binaryAfter (c : Char) : Bool :=
  c.isDigit || c.isAlpha || c = '²' || c = '³' || c = '¹' || c = '⁰'
  || c = '⁴' || c = '⁵' || c = '⁶' || c = '⁷' || c = '⁸' || c = '⁹'
  || c = '⁺' || c = '⁻' || c = '⁼' || c = '·' || c = '⟧' || c = ')'

/-- Matcher for `\s*=\s*` → `" = "`. -/
def eqSpaceStep (cs : List Char) : Option (List Char × List Char) :=
  let w := takeRun Char.isWhitespace cs
  match w.2 with
  | '=' :: rest =>
    let w2 := takeRun Char.isWhitespace rest
    some (" = ".data, w2.2)
  | _ => none

/-- Matcher for `\s*\+\s*` → `" + "`. -/
def plusSpaceStep (cs : List Char) : Option (List Char × List Char) :=
  let w := takeRun Char.isWhitespace cs
  match w.2 with
  | '+' :: rest =>
    let w2 := takeRun Char.isWhitespace rest
    some (" + ".data, w2.2)
  | _ => none

/-- Matcher for the binary-minus rule `(BINARY_AFTER)\s*-\s*` →
`\1 - `. -/
def minusSpaceStep (cs : List Char) : Option (List Char × List Char) :=
  match cs with
  | b :: rest =>
    if binaryAfter b then
      let w := takeRun Char.isWhitespace rest
      match w.2 with
      | '-' :: rest2 =>
        let w2 := takeRun Char.isWhitespace rest2
        some (b :: " - ".data, w2.2)
      | _ => none
    else none
  | _ => none

/-- Matcher collapsing runs of two or more spaces (`re.sub("  +", " ")`). -/
def collapseSpacesStep (cs : List Char) : Option (List Char × List Char) :=
  match cs with
  | ' ' :: ' ' :: _ =>
    let r := takeRun (fun c => c = ' ') cs
    some ([' '], r.2)
  | _ => none

/-- Split into fraction-marker segments (`⟦[^⟧]*⟧`, kept opaque, flag
`true`) and plain segments, mirroring the `re.split` in
`_normalize_spacing`. -/
def splitSegs : Nat → List Char → List (Bool × List Char)
  | 0, cs => [(false, cs)]
  | _ + 1, [] => []
  | fuel + 1, cs =>
    let p := takeRun (fun c => c ≠ '⟦') cs
    match p.2 with
    | [] => if p.1.isEmpty then [] else [(false, p.1)]
    | '⟦' :: rest =>
      let inner := takeRun (fun c => c ≠ '⟧') rest
      match inner.2 with
      | '⟧' :: rest2 =>
        (false, p.1) :: (true, '⟦' :: inner.1 ++ ['⟧']) :: splitSegs fuel rest2
      | _ => [(false, p.1 ++ '⟦' :: inner.1)]
    | _ => [(false, cs)]

/-- Normalisation of a plain (non-marker) segment: the `=`, `+`, binary
`-` and collapse passes in source order. -/
def plainNormalize (cs : List Char) : List Char :=
  let s1 := runPass eqSpaceStep cs
  let s2 := runPass plusSpaceStep s1
  let s3 := runPass minusSpaceStep s2
  runPass collapseSpacesStep s3

/-- Matcher for the `(⟧)\s*-\s*` boundary fixup. -/
def closeMinusStep (cs : List Char) : Option (List Char × List Char) :=
  match cs with
  | '⟧' :: rest =>
    let w := takeRun Char.isWhitespace rest
    match w.2 with
    | '-' :: rest2 =>
      let w2 := takeRun Char.isWhitespace rest2
      some ('⟧' :: " - ".data, w2.2)
    | _ => none
  | _ => none

/-- Character class preceding `⟦` that forces an inserted space. -/
def termBeforeOpen (c : Char) : Bool :=
  c.isDigit || c.isAlpha || c = '²' || c = '³' || c = '¹' || c = '⁰'
  || c = '⁴' || c = '⁵' || c = '⁶' || c = '⁷' || c = '⁸' || c = '⁹'
  || c = '⁺' || c = '⁻' || c = '⁼' || c = '·' || c = '⟧' || c = ')'

/-- Matcher inserting a space between a term character and `⟦`. -/
def spaceBeforeOpenStep (cs : List Char) : Option (List Char × List Char) :=
  match cs with
  | b :: '⟦' :: rest =>
    if termBeforeOpen b then some ([b, ' ', '⟦'], rest) else none
  | _ => none

/-- Matcher inserting a space between `⟧` and an alphanumeric
character. -/
def spaceAfterCloseStep (cs : List Char) : Option (List Char × List Char) :=
  match cs with
  | '⟧' :: d :: rest =>
    if d.isDigit || d.isAlpha then some (['⟧', ' ', d], rest) else none
  | _ => none

/-- Embedding of `_normalize_spacing`. -/
def normalize_spacing (s : String) : String :=
  let segs := splitSegs s.data.length s.data
  let joined :=
    (segs.map (fun seg => if seg.1 then seg.2 else plainNormalize seg.2)).flatten
  let j1 := runPass closeMinusStep joined
  let j2 := runPass spaceBeforeOpenStep j1
  let j3 := runPass spaceAfterCloseStep j2
  String.mk (runPass collapseSpacesStep j3)

/-- Embedding of `_format_input_str`: the raw-typed-side formatter (caret
superscripts, `*` cleanup, stacked-fraction markers, prettify,
spacing). -/
def format_input_str (raw : String) : String :=
  let s0 := trimChars raw.data
  let s1 := runPass caretParenStep s0
  let s2 := runPass caretNumStep s1
  let s3 := runPass digitStarLetterStep s2
  let s4 := runPass parenStarLetterStep s3
  let s5 := starToDot s4
  let s6 := runPass parenFracStep s5
  let s7 := runPass simpleFracStep s6
  normalize_spacing (String.mk (prettifySymbols s7))

/-- Embedding of `_format_input_eq`. -/
def format_input_eq (lhsRaw rhsRaw : String) : String :=
  format_input_str lhsRaw ++ " = " ++ format_input_str rhsRaw

/-- Inner loop of `_count_terms_in_str`: count top-level `+`/`-`
separators, tracking parenthesis depth. -/
def countSeps : ℤ → List Char → Nat
  | _, [] => 0
  | depth, c :: cs =>
    if c = '(' then countSeps (depth + 1) cs
    else if c = ')' then countSeps (depth - 1) cs
    else if (c = '+' || c = '-') && depth = 0 then 1 + countSeps depth cs
    else countSeps depth cs

/-- Embedding of `_count_terms_in_str`. -/
def countTermsInStr (s : String) : Nat :=
  let t := trimChars s.data
  match t with
  | [] => 0
  | c :: rest => 1 + countSeps 0 (if c = '+' || c = '-' then rest else t)

/-- Replace each occurrence of the variable letter `x` by `rep`
(the `str.replace(var_name, ...)` calls in the verification builder). -/
def replaceVar (s : String) (rep : String) : String :=
  String.mk ((s.data.map (fun c => if c = 'x' then rep.data else [c])).flatten)

/-- Whether a string contains the stacked-fraction open marker
(`_FRAC_OPEN in coeff_str_expr`). -/
def containsFracOpen (s : String) : Bool :=
  s.data.contains '⟦'

/-- Coefficient of the variable after the engine has moved the
right-hand variable term to the left (`lhs.coeff(var)` at the Step-4
check of `solve_linear_equation`). -/
def finalCoeff (lhs rhs : LinExpr) : ℚ :=
  lhs.a - rhs.a

/-- Constant remaining on the right after the engine has moved the
left-hand constant to the right. -/
def finalRhsConst (lhs rhs : LinExpr) : ℚ :=
  rhs.b - lhs.b

/-- The solution the symbolic engine computes: `simplify(rhs / coeff)`
(also the `coeff == 1` case, where division by 1 is the identity). -/
def singleVarSolution (lhs rhs : LinExpr) : ℚ :=
  finalRhsConst lhs rhs / finalCoeff lhs rhs

/-- The combine/expand step of `solve_linear_equation` (term-count and
parenthesis comparison of the raw text against the parsed tree), emitted
before the isolation phases when SymPy auto-simplified during parsing. -/
def combineStep (lhsRaw rhsRaw : String) (lhs rhs : LinExpr) : List Step :=
  let origL := countTermsInStr lhsRaw
  let origR := countTermsInStr rhsRaw
  let parsedL := termCount lhs
  let parsedR := termCount rhs
  let lChanged := origL ≠ parsedL
  let rChanged := origR ≠ parsedR
  let parensGone :=
    (lhsRaw.data.contains '(' ∧ ¬ (formatLin lhs).data.contains '(') ∨
    (rhsRaw.data.contains '(' ∧ ¬ (formatLin rhs).data.contains '(')
  if lChanged ∨ rChanged ∨ parensGone then
    let hasParens := lhsRaw.data.contains '(' ∨ rhsRaw.data.contains '('
    let termsDecreased := origL > parsedL ∨ origR > parsedR
    let desc :=
      if hasParens ∧ termsDecreased then "Expand and combine like terms"
      else if hasParens then
        if parensGone ∧ ¬ lChanged ∧ ¬ rChanged then
          "Expand and combine like terms"
        else "Expand"
      else "Combine like terms"
    [⟨desc, format_input_str lhsRaw ++ " = " ++ format_input_str rhsRaw
        ++ "  →  " ++ formatLin lhs ++ " = " ++ formatLin rhs⟩]
  else []

/-- Move-variable phase (Step 2 of the engine): when the right side has a
non-zero variable coefficient, emit the subtract/add step and the
simplify step.  Returns the new sides and the emitted steps. -/
def moveVarPhase (lhs rhs : LinExpr) : LinExpr × LinExpr × List Step :=
  if rhs.a = 0 then (lhs, rhs, [])
  else
    let newLhs : LinExpr := ⟨lhs.a - rhs.a, lhs.b⟩
    let newRhs : LinExpr := ⟨0, rhs.b⟩
    let termStr := formatXTerm rhs.a
    let work :=
      if rhs.a > 0 then
        formatLin lhs ++ " - " ++ termStr ++ " = "
          ++ formatLin rhs ++ " - " ++ termStr
      else
        formatLin lhs ++ " + " ++ formatXTerm (-rhs.a) ++ " = "
          ++ formatLin rhs ++ " + " ++ formatXTerm (-rhs.a)
    let desc :=
      if rhs.a > 0 then
        "Subtract " ++ formatXTermPlain rhs.a ++ " from both sides"
      else
        "Add " ++ formatXTermPlain (-rhs.a) ++ " to both sides"
    (newLhs, newRhs,
      [⟨desc, work⟩,
       ⟨"Simplify both sides", formatLin newLhs ++ " = " ++ formatLin newRhs⟩])

/-- Move-constant phase (Step 2, second half): when a constant remains on
the left, emit the subtract/add step and the simplify step. -/
def moveConstPhase (lhs rhs : LinExpr) : LinExpr × LinExpr × List Step :=
  if lhs.b = 0 then (lhs, rhs, [])
  else
    let newLhs : LinExpr := ⟨lhs.a, 0⟩
    let newRhs : LinExpr := ⟨rhs.a, rhs.b - lhs.b⟩
    let constStr := formatExprRat lhs.b
    let work :=
      if lhs.b > 0 then
        formatLin lhs ++ " - " ++ constStr ++ " = "
          ++ formatLin rhs ++ " - " ++ constStr
      else
        formatLin lhs ++ " + " ++ formatExprRat (-lhs.b) ++ " = "
          ++ formatLin rhs ++ " + " ++ formatExprRat (-lhs.b)
    let desc :=
      if lhs.b > 0 then
        "Subtract " ++ formatExprPlainRat lhs.b ++ " from both sides"
      else
        "Add " ++ formatExprPlainRat (-lhs.b) ++ " to both sides"
    (newLhs, newRhs,
      [⟨desc, work⟩,
       ⟨"Simplify both sides", formatLin newLhs ++ " = " ++ formatLin newRhs⟩])

/-- Degenerate (coefficient `0`) terminal of the engine: identity when
the remaining right-hand constant is `0`, contradiction otherwise.  The
trail has no verification steps and its summary dict carries no
`validation_status` key. -/
def degenerateTrail (lhsRaw rhsRaw : String) (priorSteps : List Step)
    (rhsVal : ℚ) : Trail :=
  if rhsVal = 0 then
    { steps := priorSteps ++ [⟨"The variable cancels — identity", "0 = 0"⟩]
      final_answer :=
        "Infinite solutions — this equation is an identity.\n"
          ++ "Every real number satisfies " ++ lhsRaw ++ " = " ++ rhsRaw ++ "."
      verification_steps := []
      validation_status := none }
  else
    { steps := priorSteps
        ++ [⟨"The variable cancels — contradiction",
             "0 = " ++ formatExprRat rhsVal⟩]
      final_answer :=
        "No solution — this equation is a contradiction.\n"
          ++ "Simplifies to  0 = " ++ formatExprRat rhsVal
          ++ ",  which is impossible."
      verification_steps := []
      validation_status := none }

/-- The divide-both-sides step expressions (engine lines around the
`coeff != 1` branch): `÷` notation is chosen when the coefficient's own
formatting already contains a fraction marker, otherwise the two sides are
wrapped in stacked-fraction markers over the coefficient. -/
def divideExprString (lhs rhs : LinExpr) (coeff : ℚ) : String :=
  let coeffStr := formatExprRat coeff
  if containsFracOpen coeffStr then
    formatLin lhs ++ " ÷ " ++ coeffStr ++ " = " ++ formatLin rhs ++ " ÷ " ++ coeffStr
  else
    fracMark (formatLin lhs) coeffStr ++ " = " ++ fracMark (formatLin rhs) coeffStr

/-- Verification-step builder of `solve_linear_equation` (5 steps: state,
substitute, evaluate LHS, evaluate RHS, compare), evaluated on the
re-parsed original sides. -/
def buildVerificationSteps (lhs rhs : LinExpr) (sol : ℚ) : List Step :=
  let solPlain := formatExprPlainRat sol
  let lhsSubst := replaceVar (formatLin lhs) ("(" ++ solPlain ++ ")")
  let rhsSubst := replaceVar (formatLin rhs) ("(" ++ solPlain ++ ")")
  let lhsVal := lhs.eval sol
  let rhsVal := rhs.eval sol
  [⟨"Start with the original equation",
    formatLin lhs ++ " = " ++ formatLin rhs⟩,
   ⟨"Substitute x = " ++ solPlain ++ " into both sides",
    lhsSubst ++ " = " ++ rhsSubst⟩,
   ⟨"Evaluate the left-hand side",
    "LHS = " ++ lhsSubst ++ " = " ++ formatExprRat lhsVal⟩,
   ⟨"Evaluate the right-hand side",
    "RHS = " ++ rhsSubst ++ " = " ++ formatExprRat rhsVal⟩,
   ⟨"Compare both sides",
    "LHS = " ++ formatExprRat lhsVal ++ ", RHS = " ++ formatExprRat rhsVal
      ++ "\nLHS = RHS  ✓"⟩]

/-- Embedding of the single-variable isolation engine of
`solve_linear_equation` on parsed (flat, expanded) linear sides: the
steps-state machine, the degenerate branch, the divide branch and the
verification generator.  `lhsRaw`/`rhsRaw` are the verbatim typed side
strings. -/
def solveSingleVar (lhsRaw rhsRaw : String) (lhs rhs : LinExpr) : Trail :=
  let step0 : Step :=
    ⟨"Starting with the original equation", format_input_eq lhsRaw rhsRaw⟩
  let combined := combineStep lhsRaw rhsRaw lhs rhs
  let m1 := moveVarPhase lhs rhs
  let m2 := moveConstPhase m1.1 m1.2.1
  let lhs2 := m2.1
  let rhs2 := m2.2.1
  let priorSteps := step0 :: combined ++ m1.2.2 ++ m2.2.2
  let coeff := lhs2.a
  if coeff = 0 then degenerateTrail lhsRaw rhsRaw priorSteps rhs2.b
  else
    let sol := rhs2.b / coeff
    let divSteps : List Step :=
      if coeff = 1 then []
      else
        [⟨"Divide both sides by " ++ formatExprPlainRat coeff,
          divideExprString lhs2 rhs2 coeff⟩,
         ⟨"Simplify to get the answer", "x = " ++ formatExprRat sol⟩]
    { steps := priorSteps ++ divSteps
      final_answer := "x = " ++ formatExprRat sol
      verification_steps := buildVerificationSteps lhs rhs sol
      validation_status := none }

/-- Strip trailing `'0'` characters (the `rstrip("0")` of `_fmt_num`). -/
def stripTrailingZeroChars (cs : List Char) : List Char :=
  (cs.reverse.dropWhile (fun c => c = '0')).reverse

/-- The `round(value)` of `_fmt_num`, modelled as round-half-up
(indistinguishable from Python's rounding on the values the claims
touch); `⌊q + 1/2⌋` computed by floor division on the normalised
numerator and denominator. -/
def roundHalfUp (q : ℚ) : ℤ :=
  let h : ℚ := q + 1/2
  h.num.fdiv (h.den : ℤ)

/-- Embedding of `_fmt_num` of `numerical.py` on the exact rational value
of the float: integers print bare, otherwise a decimal string with up to
10 digits after the point, trailing zeros stripped.  (The float is
modelled by the exact rational.) -/
def fmtNumQ (q : ℚ) : String :=
  let r : ℤ := roundHalfUp q
  let d : ℚ := q - (r : ℚ)
  let dabs : ℚ := if d < 0 then -d else d
  if dabs < 1/1000000000000 then toString r
  else
    let n := q.num.natAbs
    let d := q.den
    let scaled := (n * 10^10 + d / 2) / d
    let ip := scaled / 10^10
    let fp := scaled % 10^10
    let fpStr := toString fp
    let padded := String.mk (List.replicate (10 - fpStr.length) '0') ++ fpStr
    let frac := String.mk (stripTrailingZeroChars padded.data)
    (if q < 0 then "-" else "") ++ toString ip
      ++ (if frac.data.isEmpty then "" else "." ++ frac)

/-- The absolute tolerance of the numerical verification comparison
(`abs(lhs_val - rhs_val) < 1e-10`). -/
def numTolerance : ℚ := 1 / 10000000000

/-- The solution the numerical engine computes: `x = -b / a` with
`a = coeff`, `b = const` of the expanded `lhs - rhs`. -/
def numericSolution (lhs rhs : LinExpr) : ℚ :=
  -(lhs.b - rhs.b) / (lhs.a - rhs.a)

/-- Embedding of `solve_numeric`'s single-variable path
(`numerical.py`): coefficient extraction, the degenerate branch, the
NumPy division step, the numeric verification and the `_build_result`
summary with its unconditional `validation_status = "pass"`. -/
def solveNumericSingle (lhsRaw rhsRaw : String) (lhs rhs : LinExpr) : Trail :=
  let coeff := lhs.a - rhs.a
  let constC := lhs.b - rhs.b
  let step0 : Step :=
    ⟨"Starting with the original equation", format_input_eq lhsRaw rhsRaw⟩
  if coeff = 0 then
    if constC = 0 then
      { steps := [step0, ⟨"The variable cancels — identity", "0 = 0"⟩]
        final_answer :=
          "Infinite solutions — this equation is an identity.\n"
            ++ "Every real number satisfies " ++ lhsRaw ++ " = " ++ rhsRaw ++ "."
        verification_steps := []
        validation_status := some "pass" }
    else
      { steps := [step0,
          ⟨"The variable cancels — contradiction", "0 = " ++ fmtNumQ constC⟩]
        final_answer :=
          "No solution — this equation is a contradiction.\n"
            ++ "Simplifies to 0 = " ++ fmtNumQ constC ++ ", which is impossible."
        verification_steps := []
        validation_status := some "pass" }
  else
    let aStr := fmtNumQ coeff
    let bStr := fmtNumQ constC
    let sol := -constC / coeff
    let solStr := fmtNumQ sol
    let lhsV := lhs.eval sol
    let rhsV := rhs.eval sol
    let ok := |lhsV - rhsV| < numTolerance
    { steps :=
        [step0,
         ⟨"Identify the coefficient and constant",
          aStr ++ "x + (" ++ bStr ++ ") = 0"⟩,
         ⟨"Compute x = −(constant) ÷ coefficient",
          "x = −(" ++ bStr ++ ") ÷ " ++ aStr ++ "  =  " ++ solStr⟩]
      final_answer := "x = " ++ solStr
      verification_steps :=
        [⟨"Start with the original equation",
          format_input_str lhsRaw ++ " = " ++ format_input_str rhsRaw⟩,
         ⟨"Substitute x = " ++ solStr,
          "LHS = " ++ fmtNumQ lhsV ++ ",  RHS = " ++ fmtNumQ rhsV⟩,
         ⟨"Compare both sides",
          "LHS = " ++ fmtNumQ lhsV ++ ", RHS = " ++ fmtNumQ rhsV ++ "\nLHS "
            ++ (if ok then "=" else "≈") ++ " RHS  "
            ++ (if ok then "✓" else "✗")⟩]
      validation_status := some "pass" }

/-- Embedding of `solve_substitution` (`substitution.py`) for a
single-variable equation with the caller-supplied assignment `x = v`,
symbolic compute mode: five steps, no verification section, and a summary
whose `validation_status` is `"pass"` exactly when the substituted
equation value `lhs - rhs` simplifies to `0`. -/
def solve_substitution (lhsRaw rhsRaw : String) (lhs rhs : LinExpr)
    (v : ℚ) : Trail :=
  let valuesDisplay := "x = " ++ formatExprRat v
  let valPlain := formatExprPlainRat v
  let lhsSub := replaceVar (formatLin lhs) ("(" ++ valPlain ++ ")")
  let rhsSub := replaceVar (formatLin rhs) ("(" ++ valPlain ++ ")")
  let lhsResult := lhs.eval v
  let rhsResult := rhs.eval v
  let eqValue := lhsResult - rhsResult
  let isValid := eqValue = 0
  { steps :=
      [⟨"Starting with the original equation", format_input_eq lhsRaw rhsRaw⟩,
       ⟨"Given values to substitute", valuesDisplay⟩,
       ⟨"Substitute " ++ valuesDisplay ++ " into the equation",
        lhsSub ++ " = " ++ rhsSub⟩,
       ⟨"Evaluate the equation", lhsSub ++ " = " ++ formatExprRat lhsResult⟩,
       ⟨"Get the value of the equation",
        formatExprRat lhsResult ++ " - " ++ formatExprRat rhsResult
          ++ " = " ++ formatExprRat eqValue⟩]
    final_answer :=
      if isValid then
        formatExprPlainRat lhsResult ++ " = " ++ formatExprPlainRat rhsResult
          ++ "\nLHS and RHS are equal  ✓\nEquation value = "
          ++ formatExprPlainRat eqValue
      else
        formatExprPlainRat lhsResult ++ " ≠ " ++ formatExprPlainRat rhsResult
          ++ "\nLHS and RHS are NOT equal  ✗\nEquation value = "
          ++ formatExprPlainRat eqValue
    verification_steps := []
    validation_status := some (if isValid then "pass" else "fail") }

/-- Steps accumulated before the degenerate terminal of the symbolic
engine. -/
def degeneratePriorSteps (lhsRaw rhsRaw : String) (lhs rhs : LinExpr) :
    List Step :=
  Step.mk "Starting with the original equation" (format_input_eq lhsRaw rhsRaw)
    :: combineStep lhsRaw rhsRaw lhs rhs ++ (moveVarPhase lhs rhs).2.2
    ++ (moveConstPhase (moveVarPhase lhs rhs).1 (moveVarPhase lhs rhs).2.1).2.2

/-- The reserved function/constant names of `_detect_variables`
(`_RESERVED`): note the capital `E`; lowercase `e` is not reserved. -/
def RESERVED : List String :=
  ["sin", "cos", "tan", "log", "ln", "exp", "sqrt", "pi", "PI", "Pi",
   "abs", "E"]

/-- The `equation_str.replace('^', '**')` preprocessing of
`_detect_variables`. -/
def cleanCaret (s : String) : List Char :=
  (s.data.map (fun c => if c = '^' then ['*', '*'] else [c])).flatten

/-- Maximal alphabetic runs (`re.findall(r'[A-Za-z]+', ...)`). -/
def alphaTokensGo : Nat → List Char → List (List Char)
  | 0, _ => []
  | _ + 1, [] => []
  | fuel + 1, c :: cs =>
    if c.isAlpha then
      let r := takeRun Char.isAlpha (c :: cs)
      r.1 :: alphaTokensGo fuel r.2
    else alphaTokensGo fuel cs

/-- All maximal alphabetic runs of a character list. -/
def alphaTokens (cs : List Char) : List (List Char) :=
  alphaTokensGo cs.length cs

/-- Insertion into a codepoint-sorted duplicate-free list (the effect of
Python's `sorted(set(...))` on single characters). -/
def insertSortedChar (c : Char) : List Char → List Char
  | [] => [c]
  | d :: ds =>
    if c.val < d.val then c :: d :: ds
    else if c = d then d :: ds
    else d :: insertSortedChar c ds

/-- Add every letter of one non-reserved token to the candidate set
(each letter becomes its own variable: implicit multiplication). -/
def addToken (acc : List Char) (tok : List Char) : List Char :=
  tok.foldl (fun a c => if c.isAlpha then insertSortedChar c a else a) acc

/-- Candidate variables collected over all tokens, skipping reserved
names. -/
def collectCands (toks : List (List Char)) : List Char :=
  toks.foldl
    (fun acc tok =>
      if RESERVED.contains (String.mk tok) then acc else addToken acc tok)
    []

/-- The sorted candidate-variable list of `_detect_variables`. -/
def detectCandidates (s : String) : List Char :=
  collectCands (alphaTokens (cleanCaret s))

/-- The `NoVariableFound` message. -/
def noVariableMsg : String :=
  "No variable found. Include a letter like x, y, or z."

/-- Embedding of `_detect_variables`. -/
def detect_variables (s : String) : Except String (List Char) :=
  let cands := detectCandidates s
  if cands.isEmpty then Except.error noVariableMsg
  else Except.ok cands

/-- Normalisation of Unicode math symbols performed at the top of both
`solve_linear_equation` and `solve_numeric`. -/
def normalizeInput (s : String) : String :=
  String.mk ((s.data.map (fun c =>
    if c = '√' then "sqrt".data
    else if c = 'π' then "(pi)".data
    else if c = '[' then ['(']
    else if c = ']' then [')']
    else if c = '\x7b' then ['(']
    else if c = '\x7d' then [')']
    else [c])).flatten)

/-- The allowed character set of `_validate_characters`. -/
def allowedChar (c : Char) : Bool :=
  c.isAlpha || c.isDigit ||
    [' ', '\t', '+', '-', '*', '/', '^', '=', '(', ')', '[', ']',
     '\x7b', '\x7d', '.', ',', ';', ':', 'π', '√'].contains c

/-- The sorted set of disallowed characters of an input (empty means the
input passes `_validate_characters`). -/
def badChars (s : String) : List Char :=
  s.data.foldl (fun acc c => if allowedChar c then acc else insertSortedChar c acc) []

/-- Split a character list on `,`/`;` separators. -/
def splitSepGo : List Char → List Char → List String
  | acc, [] => [String.mk acc.reverse]
  | acc, c :: cs =>
    if c = ',' || c = ';' then String.mk acc.reverse :: splitSepGo [] cs
    else splitSepGo (c :: acc) cs

/-- The `re.split(r'\s*[;,]\s*', ...)` + strip + drop-empty step that
detects a system. -/
def splitEquations (s : String) : List String :=
  ((splitSepGo [] s.data).map trimStr).filter (fun t => t ≠ "")

/-- Split a character list on `=`. -/
def splitEqGo : List Char → List Char → List String
  | acc, [] => [String.mk acc.reverse]
  | acc, c :: cs =>
    if c = '=' then String.mk acc.reverse :: splitEqGo [] cs
    else splitEqGo (c :: acc) cs

/-- Dispatch outcome of the entry pipeline shared verbatim by
`solve_linear_equation` (`engine.py`) and `solve_numeric`
(`numerical.py`): normalisation, character validation, system split,
variable detection — in that order — then the `=`-shape checks of the
single-equation path. -/
inductive EntryOutcome where
  | invalidChar (bad : List Char)
  | noVariable
  | system (eqs : List String) (vars : List Char)
  | multiVar (vars : List Char)
  | missingEquals
  | multipleEquals
  | emptySide
  | singleVar (lhsRaw rhsRaw : String) (vars : List Char)
deriving Repr, DecidableEq

/-- Embedding of the shared entry pipeline of both solver entry points
(the code is duplicated verbatim in `engine.py` and `numerical.py`). -/
def solveEntry (input : String) : EntryOutcome :=
  let s := normalizeInput input
  let bad := badChars s
  if ¬ bad.isEmpty then EntryOutcome.invalidChar bad
  else
    let raws := splitEquations s
    let allText := String.intercalate " " raws
    match detect_variables allText with
    | Except.error _ => EntryOutcome.noVariable
    | Except.ok vars =>
      if raws.length > 1 then EntryOutcome.system raws vars
      else if vars.length > 1 then EntryOutcome.multiVar vars
      else if ¬ s.data.contains '=' then EntryOutcome.missingEquals
      else
        match splitEqGo [] s.data with
        | [l, r] =>
          if trimStr l = "" ∨ trimStr r = "" then EntryOutcome.emptySide
          else EntryOutcome.singleVar (trimStr l) (trimStr r) vars
        | _ => EntryOutcome.multipleEquals

/-- Numeric value of a digit run. -/
def natOfDigits (ds : List Char) : Nat :=
  ds.foldl (fun a c => a * 10 + (c.toNat - '0'.toNat)) 0

/-- Parse one additive term of a flat linear expression: an integer, an
optional `*`, an optional `x`, an optional `/integer`.  Models SymPy
`parse_expr` (with implicit multiplication and rationalize) on the flat
linear strings the concrete claims feed it. -/
def parseTermChars (cs : List Char) : Option (LinExpr × List Char) :=
  let ds := takeRun Char.isDigit cs
  match ds.1 with
  | [] =>
    match ds.2 with
    | 'x' :: '/' :: r2 =>
      let d2 := takeRun Char.isDigit r2
      match d2.1 with
      | [] => none
      | dd => some (⟨1 / (natOfDigits dd : ℚ), 0⟩, d2.2)
    | 'x' :: r2 => some (⟨1, 0⟩, r2)
    | _ => none
  | ns =>
    let n : ℚ := (natOfDigits ns : ℚ)
    match ds.2 with
    | '*' :: 'x' :: r2 => some (⟨n, 0⟩, r2)
    | 'x' :: '/' :: r2 =>
      let d2 := takeRun Char.isDigit r2
      match d2.1 with
      | [] => none
      | dd => some (⟨n / (natOfDigits dd : ℚ), 0⟩, d2.2)
    | 'x' :: r2 => some (⟨n, 0⟩, r2)
    | '/' :: r2 =>
      let d2 := takeRun Char.isDigit r2
      match d2.1 with
      | [] => none
      | dd => some (⟨0, n / (natOfDigits dd : ℚ)⟩, d2.2)
    | r2 => some (⟨0, n⟩, r2)

/-- Parse a sign-separated sequence of linear terms. -/
def parseSideGo : Nat → ℚ → LinExpr → List Char → Option LinExpr
  | 0, _, _, _ => none
  | _ + 1, sign, acc, [] =>
    if sign = 0 then some acc else none
  | fuel + 1, sign, acc, cs =>
    let cs := (takeRun (fun c => c = ' ') cs).2
    match cs with
    | [] => if sign = 0 then some acc else none
    | _ =>
      match parseTermChars cs with
      | none => none
      | some (t, rest) =>
        let acc' : LinExpr := ⟨acc.a + sign * t.a, acc.b + sign * t.b⟩
        let rest := (takeRun (fun c => c = ' ') rest).2
        match rest with
        | [] => some acc'
        | '+' :: r2 => parseSideGo fuel 1 acc' r2
        | '-' :: r2 => parseSideGo fuel (-1) acc' r2
        | _ => none

/-- Embedding of `_parse_side` restricted to flat linear single-variable
expressions (the shapes the concrete claims exercise). -/
def parse_side (s : String) : Option LinExpr :=
  let cs := trimChars s.data
  match cs with
  | '-' :: rest => parseSideGo (cs.length + 1) (-1) ⟨0, 0⟩ rest
  | _ => parseSideGo (cs.length + 1) 1 ⟨0, 0⟩ cs

/-- The single-equation single-variable path of `solve_linear_equation`
end to end: entry pipeline, side parsing, then the isolation engine.
(The system and multi-variable dispatch targets are embedded
separately.) -/
def solveLinearSingle (input : String) : Except String Trail :=
  match solveEntry input with
  | EntryOutcome.invalidChar bad =>
    Except.error ("Invalid character(s): "
      ++ String.intercalate " " (bad.map (fun c => String.mk [c])))
  | EntryOutcome.noVariable => Except.error noVariableMsg
  | EntryOutcome.missingEquals =>
    Except.error "Equation must contain '='. Example: 2x + 3 = 7"
  | EntryOutcome.multipleEquals =>
    Except.error "Equation must contain exactly one '=' sign."
  | EntryOutcome.emptySide =>
    Except.error "Both sides of the equation must have expressions."
  | EntryOutcome.system _ _ =>
    Except.error "system path: see the system-of-equations embedding"
  | EntryOutcome.multiVar _ =>
    Except.error "multi-variable path: embedded separately"
  | EntryOutcome.singleVar l r _ =>
    match parse_side l, parse_side r with
    | some lhs, some rhs => Except.ok (solveSingleVar l r lhs rhs)
    | _, _ => Except.error "Could not parse expression."

/-- SymPy expression trees over the single detected variable, as far as
the linearity classifier inspects them: rational constants, the
variable, sums, products, integer powers, `sqrt` (SymPy's
`Pow(·, 1/2)`), and named function applications. -/
inductive SymExpr where
  | num (q : ℚ)
  | var
  | add (a b : SymExpr)
  | mul (a b : SymExpr)
  | intPow (a : SymExpr) (n : ℤ)
  | sqrtE (a : SymExpr)
  | funE (name : String) (a : SymExpr)
deriving Repr, DecidableEq

/-- Whether the variable occurs in the tree (`var in expr.free_symbols`). -/
def hasVar : SymExpr → Bool
  | SymExpr.num _ => false
  | SymExpr.var => true
  | SymExpr.add a b => hasVar a || hasVar b
  | SymExpr.mul a b => hasVar a || hasVar b
  | SymExpr.intPow a _ => hasVar a
  | SymExpr.sqrtE a => hasVar a
  | SymExpr.funE _ a => hasVar a

/-- The degree `expr.as_poly(var).degree()` when the tree is a polynomial
in the variable, `none` when `as_poly` returns `None` (variable inside a
function, under `sqrt`, or raised to a negative power). -/
def polyDegree? : SymExpr → Option ℕ
  | SymExpr.num _ => some 0
  | SymExpr.var => some 1
  | SymExpr.add a b =>
    match polyDegree? a, polyDegree? b with
    | some d1, some d2 => some (max d1 d2)
    | _, _ => none
  | SymExpr.mul a b =>
    match polyDegree? a, polyDegree? b with
    | some d1, some d2 => some (d1 + d2)
    | _, _ => none
  | SymExpr.intPow a n =>
    if ¬ hasVar a then some 0
    else if 0 ≤ n then (polyDegree? a).map (fun d => d * n.toNat)
    else none
  | SymExpr.sqrtE a => if hasVar a then none else some 0
  | SymExpr.funE _ a => if hasVar a then none else some 0

/-- The transcendental function names of `_TRANS_FUNC_NAMES` — note that
`sqrt` is not among them. -/
def TRANS_FUNC_NAMES : List String :=
  ["sin", "cos", "tan", "cot", "sec", "csc",
   "asin", "acos", "atan", "acot",
   "sinh", "cosh", "tanh",
   "log", "exp"]

/-- Embedding of `_has_transcendental`: some listed function is applied
somewhere to an expression containing the variable. -/
def hasTranscendental : SymExpr → Bool
  | SymExpr.num _ => false
  | SymExpr.var => false
  | SymExpr.add a b => hasTranscendental a || hasTranscendental b
  | SymExpr.mul a b => hasTranscendental a || hasTranscendental b
  | SymExpr.intPow a _ => hasTranscendental a
  | SymExpr.sqrtE a => hasTranscendental a
  | SymExpr.funE n a =>
    (TRANS_FUNC_NAMES.contains n && hasVar a) || hasTranscendental a

/-- The denominator SymPy's `fraction` computes: denominators of rational
constants, negative powers turned positive under a product; sums and
function applications are left with denominator 1 (`fraction` does not
combine them). -/
def fracDen : SymExpr → SymExpr
  | SymExpr.num q => SymExpr.num (q.den : ℚ)
  | SymExpr.var => SymExpr.num 1
  | SymExpr.add _ _ => SymExpr.num 1
  | SymExpr.mul a b => SymExpr.mul (fracDen a) (fracDen b)
  | SymExpr.intPow a n =>
    if n < 0 then SymExpr.intPow a (-n) else SymExpr.num 1
  | SymExpr.sqrtE _ => SymExpr.num 1
  | SymExpr.funE _ _ => SymExpr.num 1

/-- Top-level additive terms (`as_ordered_terms`). -/
def topTerms : SymExpr → List SymExpr
  | SymExpr.add a b => topTerms a ++ topTerms b
  | e => [e]

/-- Embedding of `_has_var_in_denominator`: the variable occurs in the
denominator of the whole expression or of one of its top-level terms. -/
def hasVarInDenominator (e : SymExpr) : Bool :=
  hasVar (fracDen e) || (topTerms e).any (fun t => hasVar (fracDen t))

/-- Outcome of the linearity check of `solve_linear_equation` /
`solve_numeric` on the expanded `lhs - rhs`: proceed with the linear
machine (also for the degenerate case), reject as nonlinear with a
reason, or raise the `Could not determine the degree` error. -/
inductive Classification where
  | linearOrDegenerate
  | nonlinear (reason : String) (degree : ℕ)
  | undetermined
deriving Repr, DecidableEq

/-- Embedding of the single-variable linearity check (`engine.py` lines
695–725 and the identical block of `numerical.py`). -/
def classifySingleVar (combined : SymExpr) : Classification :=
  match polyDegree? combined with
  | none =>
    if hasVar combined = false then Classification.linearOrDegenerate
    else if hasTranscendental combined = true then
      Classification.nonlinear "transcendental" 1
    else if hasVarInDenominator combined = true then
      Classification.nonlinear "denominator" 1
    else Classification.undetermined
  | some d =>
    if 1 < d then Classification.nonlinear "degree" d
    else Classification.linearOrDegenerate

/-- One equation of a two-unknown linear system, parsed and expanded to
the form `a·x + b·y = c` with exact rational coefficients. -/
structure Eq2 where
  a : ℚ
  b : ℚ
  c : ℚ
deriving Repr, DecidableEq

/-- Whether a pair `(x, y)` satisfies the equation. -/
def Eq2.sat (e : Eq2) (x y : ℚ) : Prop :=
  e.a * x + e.b * y = e.c

/-- Determinant of the 2×2 coefficient matrix. -/
def det2 (e1 e2 : Eq2) : ℚ :=
  e1.a * e2.b - e2.a * e1.b

/-- Outcome of SymPy `solve` on the pair of equations: a unique solution,
an empty solution list (inconsistent), a parametric solution binding one
variable in terms of the free one (`xBound` tells which is bound;
`bound = coeff·free + const`), or everything free. -/
inductive SysOutcome where
  | unique (x y : ℚ)
  | inconsistent
  | dependent (xBound : Bool) (coeff const : ℚ)
  | allFree
deriving Repr, DecidableEq

/-- Embedding of `sympy.solve(eq_objects, var_symbols, dict=True)` on a
2×2 linear system: Cramer's rule when the determinant is non-zero; an
empty list when the singular system is inconsistent (cross-product
consistency conditions, plus the degenerate zero-row checks); otherwise a
parametric solution for the first solvable variable. -/
def solve2 (e1 e2 : Eq2) : SysOutcome :=
  if det2 e1 e2 ≠ 0 then
    SysOutcome.unique
      ((e1.c * e2.b - e2.c * e1.b) / det2 e1 e2)
      ((e1.a * e2.c - e2.a * e1.c) / det2 e1 e2)
  else if (e1.a = 0 ∧ e1.b = 0 ∧ e1.c ≠ 0) ∨ (e2.a = 0 ∧ e2.b = 0 ∧ e2.c ≠ 0)
      ∨ e1.a * e2.c ≠ e2.a * e1.c ∨ e1.b * e2.c ≠ e2.b * e1.c then
    SysOutcome.inconsistent
  else if e1.a ≠ 0 then
    SysOutcome.dependent true (-(e1.b) / e1.a) (e1.c / e1.a)
  else if e2.a ≠ 0 then
    SysOutcome.dependent true (-(e2.b) / e2.a) (e2.c / e2.a)
  else if e1.b ≠ 0 then
    SysOutcome.dependent false 0 (e1.c / e1.b)
  else if e2.b ≠ 0 then
    SysOutcome.dependent false 0 (e2.c / e2.b)
  else SysOutcome.allFree

/-- Formatted variable term `a·y` (SymPy printing conventions, like
`formatXTerm`). -/
def formatYTerm (a : ℚ) : String :=
  let numPart : String :=
    if a.num = 1 then "y" else if a.num = -1 then "-y"
    else toString a.num ++ "y"
  if a.den = 1 then numPart
  else fracMark numPart (toString (a.den : ℤ))

/-- `_format_expr` on a two-variable linear form `a·x + b·y` (the
expanded left side of a system equation). -/
def formatLin2 (a b : ℚ) : String :=
  if a = 0 ∧ b = 0 then "0"
  else if a = 0 then formatYTerm b
  else if b = 0 then formatXTerm a
  else if b > 0 then formatXTerm a ++ " + " ++ formatYTerm b
  else formatXTerm a ++ " - " ++ formatYTerm (-b)

/-- `_format_expr` on a linear form `p·y + q` in the remaining variable
(the isolation expressions of the 2×2 substitution narration). -/
def formatYLin (p q : ℚ) : String :=
  if p = 0 then formatExprRat q
  else if q = 0 then formatYTerm p
  else if q > 0 then formatYTerm p ++ " + " ++ formatExprRat q
  else formatYTerm p ++ " - " ++ formatExprRat (-q)

/-- The verification block of `_solve_system` for a concrete solution
`(x0, y0)`. -/
def systemVerification (raw1 raw2 : String) (e1 e2 : Eq2) (x0 y0 : ℚ) :
    List Step :=
  let mkEqStep := fun (i : String) (raw : String) (e : Eq2) =>
    let lhsVal := e.a * x0 + e.b * y0
    let ok := lhsVal - e.c = 0
    Step.mk ("Equation (" ++ i ++ "): " ++ raw)
      ("LHS = " ++ formatExprRat lhsVal ++ ",  RHS = " ++ formatExprRat e.c
        ++ "  →  " ++ (if ok then "✓" else "✗"))
  [⟨"Substitute into every equation", "Checking…"⟩,
   mkEqStep "1" raw1 e1, mkEqStep "2" raw2 e2,
   ⟨"All equations verified", "All equations satisfied  ✓"⟩]

/-- Embedding of `_solve_system` (`engine.py`) for a system of two
equations in the two unknowns `x, y`: the inconsistent branch shows the
elimination steps and returns a trail with no verification; the unique
branch narrates the 2×2 substitution method (or the generic solution step
when equation (1) cannot be solved for `x`) and verifies every equation;
the parametric branch lists the free variable.  No branch raises. -/
def solveSystem2 (raw1 raw2 : String) (e1 e2 : Eq2) : Trail :=
  let s0 : Step :=
    ⟨"System of equations", "  (1)  " ++ raw1 ++ "\n  (2)  " ++ raw2⟩
  match solve2 e1 e2 with
  | SysOutcome.inconsistent =>
    let diffL := formatLin2 (e2.a - e1.a) (e2.b - e1.b)
    let diffR := formatExprRat (e2.c - e1.c)
    { steps :=
        [s0,
         ⟨"Subtract equation (1) from equation (2)",
          "(" ++ formatLin2 e2.a e2.b ++ ") − (" ++ formatLin2 e1.a e1.b
            ++ ") = (" ++ formatExprRat e2.c ++ ") − ("
            ++ formatExprRat e1.c ++ ")"⟩,
         ⟨"Simplify both sides", diffL ++ " = " ++ diffR⟩,
         ⟨"Contradiction — No Solution", diffL ++ " = " ++ diffR⟩]
      final_answer :=
        "No solution — the system is inconsistent.\n"
          ++ "The equations represent parallel lines that never intersect."
      verification_steps := []
      validation_status := none }
  | SysOutcome.unique x0 y0 =>
    let solutionSteps :=
      if e1.a ≠ 0 then
        let pc := -(e1.b) / e1.a
        let qc := e1.c / e1.a
        [⟨"From equation (1), isolate x", "x = " ++ formatYLin pc qc⟩,
         ⟨"Substitute into equation (2)",
          formatYLin (e2.b + e2.a * pc) (e2.a * qc) ++ " = "
            ++ formatExprRat e2.c⟩,
         ⟨"Solve for y", "y = " ++ formatExprRat y0⟩,
         ⟨"Back-substitute to find x", "x = " ++ formatExprRat x0⟩]
      else
        [⟨"Solution",
          "x = " ++ formatExprRat x0 ++ "\n" ++ "y = " ++ formatExprRat y0⟩]
    { steps := s0 :: solutionSteps
      final_answer :=
        "x = " ++ formatExprRat x0 ++ "\n" ++ "y = " ++ formatExprRat y0
      verification_steps := systemVerification raw1 raw2 e1 e2 x0 y0
      validation_status := none }
  | SysOutcome.dependent xB pc qc =>
    let freeName := if xB then "y" else "x"
    let boundLine :=
      if xB then "x = " ++ formatYLin pc qc
      else "y = " ++ formatExprRat qc
    let freeLine1 := freeName ++ "  (free variable)"
    let lines :=
      if xB then boundLine ++ "\n" ++ freeLine1
      else freeLine1 ++ "\n" ++ boundLine
    { steps :=
        [s0,
         ⟨"Parametric solution", "Free variable: " ++ freeName⟩,
         ⟨"Solution", lines⟩]
      final_answer :=
        (if xB then boundLine ++ "\n" ++ "y is a free variable"
         else "x is a free variable" ++ "\n" ++ boundLine)
      verification_steps :=
        let mkDepStep := fun (i raw : String) (e : Eq2) =>
          if xB then
            let yc := e.a * pc + e.b
            let cc := e.a * qc
            let ok := yc = 0 ∧ cc = e.c
            Step.mk ("Equation (" ++ i ++ "): " ++ raw)
              ("LHS = " ++ formatYLin yc cc ++ ",  RHS = "
                ++ formatExprRat e.c ++ "  →  " ++ (if ok then "✓" else "✗"))
          else
            let ok := e.a = 0 ∧ e.b * qc = e.c
            Step.mk ("Equation (" ++ i ++ "): " ++ raw)
              ("LHS = " ++ formatLin ⟨e.a, e.b * qc⟩ ++ ",  RHS = "
                ++ formatExprRat e.c ++ "  →  " ++ (if ok then "✓" else "✗"))
        [⟨"Substitute into every equation", "Checking…"⟩,
         mkDepStep "1" raw1 e1, mkDepStep "2" raw2 e2,
         ⟨"All equations verified", "All equations satisfied  ✓"⟩]
      validation_status := none }
  | SysOutcome.allFree =>
    { steps :=
        [s0,
         ⟨"Parametric solution", "Free variables: x, y"⟩,
         ⟨"Solution", "x  (free variable)\ny  (free variable)"⟩]
      final_answer := "x is a free variable\ny is a free variable"
      verification_steps :=
        [⟨"Substitute into every equation", "Checking…"⟩,
         ⟨"All equations verified", "All equations satisfied  ✓"⟩]
      validation_status := none }

/-- A `⟦` opening inside an unclosed `⟦…⟧` pair: the nested
stacked-fraction marker the renderer cannot display. -/
def nestedMarkerGo : Nat → List Char → Bool
  | _, [] => false
  | d, '⟦' :: cs => if d ≥ 1 then true else nestedMarkerGo (d + 1) cs
  | d, '⟧' :: cs => nestedMarkerGo (d - 1) cs
  | d, _ :: cs => nestedMarkerGo d cs

/-- Whether a display string contains a nested fraction marker. -/
def nestedMarker (s : String) : Bool :=
  nestedMarkerGo 0 s.data

unseal Nat.gcd Rat.add Rat.sub Rat.mul Rat.inv

lemma moveVarPhase_fst (lhs rhs : LinExpr) :
    (moveVarPhase lhs rhs).1 = ⟨lhs.a - rhs.a, lhs.b⟩ := by
  rcases lhs with ⟨la, lb⟩
  rcases rhs with ⟨ra, rb⟩
  by_cases h : ra = 0 <;> simp [moveVarPhase, h]

lemma moveVarPhase_snd (lhs rhs : LinExpr) :
    (moveVarPhase lhs rhs).2.1 = ⟨0, rhs.b⟩ := by
  rcases lhs with ⟨la, lb⟩
  rcases rhs with ⟨ra, rb⟩
  by_cases h : ra = 0 <;> simp [moveVarPhase, h]

lemma moveConstPhase_fst (lhs rhs : LinExpr) :
    (moveConstPhase lhs rhs).1 = ⟨lhs.a, 0⟩ := by
  rcases lhs with ⟨la, lb⟩
  rcases rhs with ⟨ra, rb⟩
  by_cases h : lb = 0 <;> simp [moveConstPhase, h]

lemma moveConstPhase_snd (lhs rhs : LinExpr) :
    (moveConstPhase lhs rhs).2.1 = ⟨rhs.a, rhs.b - lhs.b⟩ := by
  rcases lhs with ⟨la, lb⟩
  rcases rhs with ⟨ra, rb⟩
  by_cases h : lb = 0 <;> simp [moveConstPhase, h]

/-- After the two move phases the left side is exactly the collected
variable term and the right side the collected constant. -/
lemma movePhases_state (lhs rhs : LinExpr) :
    (moveConstPhase (moveVarPhase lhs rhs).1 (moveVarPhase lhs rhs).2.1).1
        = ⟨finalCoeff lhs rhs, 0⟩ ∧
      (moveConstPhase (moveVarPhase lhs rhs).1 (moveVarPhase lhs rhs).2.1).2.1
        = ⟨0, finalRhsConst lhs rhs⟩ := by
  rw [moveConstPhase_fst, moveConstPhase_snd, moveVarPhase_fst, moveVarPhase_snd]
  exact ⟨rfl, rfl⟩

/-- In the non-degenerate case the symbolic trail's final answer renders
the computed solution. -/
lemma solveSingleVar_final_answer (lhsRaw rhsRaw : String) (lhs rhs : LinExpr)
    (h : finalCoeff lhs rhs ≠ 0) :
    (solveSingleVar lhsRaw rhsRaw lhs rhs).final_answer
      = "x = " ++ formatExprRat (singleVarSolution lhs rhs) := by
  unfold solveSingleVar
  dsimp only
  rw [(movePhases_state lhs rhs).1, (movePhases_state lhs rhs).2]
  simp only [if_neg h]
  by_cases h1 : finalCoeff lhs rhs = 1 <;>
    simp [singleVarSolution, h1]

/-- The symbolic trail's verification steps in the non-degenerate case
are the five-step builder evaluated at the computed solution. -/
lemma solveSingleVar_verification (lhsRaw rhsRaw : String) (lhs rhs : LinExpr)
    (h : finalCoeff lhs rhs ≠ 0) :
    (solveSingleVar lhsRaw rhsRaw lhs rhs).verification_steps
      = buildVerificationSteps lhs rhs (singleVarSolution lhs rhs) := by
  unfold solveSingleVar
  dsimp only
  rw [(movePhases_state lhs rhs).1, (movePhases_state lhs rhs).2]
  simp only [if_neg h]
  by_cases h1 : finalCoeff lhs rhs = 1 <;>
    simp [singleVarSolution, h1]

/-- Substituting the symbolic solution makes both original sides take
the same exact value. -/
lemma eval_singleVarSolution (lhs rhs : LinExpr)
    (h : finalCoeff lhs rhs ≠ 0) :
    lhs.eval (singleVarSolution lhs rhs) = rhs.eval (singleVarSolution lhs rhs) := by
  rcases lhs with ⟨la, lb⟩
  rcases rhs with ⟨ra, rb⟩
  simp only [LinExpr.eval, singleVarSolution, finalCoeff, finalRhsConst] at *
  field_simp
  ring

/-- The numerical solution formula coincides with the symbolic one. -/
lemma numericSolution_eq (lhs rhs : LinExpr) :
    numericSolution lhs rhs = singleVarSolution lhs rhs := by
  rcases lhs with ⟨la, lb⟩
  rcases rhs with ⟨ra, rb⟩
  simp only [numericSolution, singleVarSolution, finalCoeff, finalRhsConst]
  ring_nf

/-- C1: for every linear single-variable equation whose final variable
coefficient is non-zero, substituting the produced solution (the one the
trail's final answer renders) back into the original left and right
sides yields equal values under the active mode's equality: exact
structural equality of the simplified values in symbolic mode, and a
difference within the absolute tolerance `1e-10` in numerical mode. -/
theorem C1_round_trip (lhsRaw rhsRaw : String) (lhs rhs : LinExpr)
    (h : finalCoeff lhs rhs ≠ 0) :
    (solveSingleVar lhsRaw rhsRaw lhs rhs).final_answer
        = "x = " ++ formatExprRat (singleVarSolution lhs rhs) ∧
      lhs.eval (singleVarSolution lhs rhs)
        = rhs.eval (singleVarSolution lhs rhs) ∧
      |lhs.eval (numericSolution lhs rhs)
          - rhs.eval (numericSolution lhs rhs)| < numTolerance := by
  refine ⟨solveSingleVar_final_answer lhsRaw rhsRaw lhs rhs h, ?_, ?_⟩
  · exact eval_singleVarSolution lhs rhs h
  · rw [numericSolution_eq, eval_singleVarSolution lhs rhs h]
    simp only [sub_self, abs_zero, numTolerance]
    norm_num

/-- C1 witness: the concrete equation `2x + 3 = 7` has non-zero final
coefficient and the round-trip property holds there. -/
theorem C1_round_trip_witness :
    finalCoeff ⟨2, 3⟩ ⟨0, 7⟩ ≠ 0 ∧
      ((solveSingleVar "2x + 3" "7" ⟨2, 3⟩ ⟨0, 7⟩).final_answer
          = "x = " ++ formatExprRat (singleVarSolution ⟨2, 3⟩ ⟨0, 7⟩) ∧
        LinExpr.eval ⟨2, 3⟩ (singleVarSolution ⟨2, 3⟩ ⟨0, 7⟩)
          = LinExpr.eval ⟨0, 7⟩ (singleVarSolution ⟨2, 3⟩ ⟨0, 7⟩) ∧
        |LinExpr.eval ⟨2, 3⟩ (numericSolution ⟨2, 3⟩ ⟨0, 7⟩)
            - LinExpr.eval ⟨0, 7⟩ (numericSolution ⟨2, 3⟩ ⟨0, 7⟩)| < numTolerance) :=
  ⟨by with_unfolding_all decide,
    C1_round_trip "2x + 3" "7" ⟨2, 3⟩ ⟨0, 7⟩ (by with_unfolding_all decide)⟩

lemma getLast?_append_single {α : Type} (l : List α) (s : α) :
    (l ++ [s]).getLast? = some s := by
  rw [List.getLast?_concat]

lemma getLast?_cons_ends {α : Type} (a : α) (l : List α) (s : α) :
    (a :: (l ++ [s])).getLast? = some s := by
  rw [← List.cons_append]
  exact getLast?_append_single _ _

lemma solveSingleVar_degenerate (lhsRaw rhsRaw : String) (lhs rhs : LinExpr)
    (h : finalCoeff lhs rhs = 0) :
    solveSingleVar lhsRaw rhsRaw lhs rhs
      = degenerateTrail lhsRaw rhsRaw
          (degeneratePriorSteps lhsRaw rhsRaw lhs rhs)
          (finalRhsConst lhs rhs) := by
  unfold solveSingleVar
  dsimp only
  rw [(movePhases_state lhs rhs).1, (movePhases_state lhs rhs).2]
  simp [h, degeneratePriorSteps]

lemma degenerateTrail_verification (lhsRaw rhsRaw : String)
    (prior : List Step) (rhsVal : ℚ) :
    (degenerateTrail lhsRaw rhsRaw prior rhsVal).verification_steps = [] := by
  unfold degenerateTrail
  split <;> rfl

lemma degenerateTrail_status (lhsRaw rhsRaw : String)
    (prior : List Step) (rhsVal : ℚ) :
    (degenerateTrail lhsRaw rhsRaw prior rhsVal).validation_status = none := by
  unfold degenerateTrail
  split <;> rfl

/-- C3: for every single-variable equation in which the variable's
coefficient reduces to zero after collecting terms, neither solver raises
(both return a trail): a zero remaining constant yields an identity step
and an infinitely-many-solutions final answer, a non-zero one a
contradiction step and a no-solution final answer, and in both modes the
trail's verification-step list is empty. -/
theorem C3_degenerate (lhsRaw rhsRaw : String) (lhs rhs : LinExpr)
    (h : finalCoeff lhs rhs = 0) :
    (solveSingleVar lhsRaw rhsRaw lhs rhs).verification_steps = [] ∧
      (solveNumericSingle lhsRaw rhsRaw lhs rhs).verification_steps = [] ∧
      (finalRhsConst lhs rhs = 0 →
        (solveSingleVar lhsRaw rhsRaw lhs rhs).steps.getLast?
            = some ⟨"The variable cancels — identity", "0 = 0"⟩ ∧
          (solveSingleVar lhsRaw rhsRaw lhs rhs).final_answer
            = "Infinite solutions — this equation is an identity.\n"
                ++ "Every real number satisfies " ++ lhsRaw ++ " = " ++ rhsRaw
                ++ "." ∧
          (solveNumericSingle lhsRaw rhsRaw lhs rhs).steps.getLast?
            = some ⟨"The variable cancels — identity", "0 = 0"⟩ ∧
          (solveNumericSingle lhsRaw rhsRaw lhs rhs).final_answer
            = "Infinite solutions — this equation is an identity.\n"
                ++ "Every real number satisfies " ++ lhsRaw ++ " = " ++ rhsRaw
                ++ ".") ∧
      (finalRhsConst lhs rhs ≠ 0 →
        ((solveSingleVar lhsRaw rhsRaw lhs rhs).steps.getLast?).map
              Step.description
            = some "The variable cancels — contradiction" ∧
          (solveSingleVar lhsRaw rhsRaw lhs rhs).final_answer
            = "No solution — this equation is a contradiction.\n"
                ++ "Simplifies to  0 = " ++ formatExprRat (finalRhsConst lhs rhs)
                ++ ",  which is impossible." ∧
          ((solveNumericSingle lhsRaw rhsRaw lhs rhs).steps.getLast?).map
              Step.description
            = some "The variable cancels — contradiction" ∧
          (solveNumericSingle lhsRaw rhsRaw lhs rhs).final_answer
            = "No solution — this equation is a contradiction.\n"
                ++ "Simplifies to 0 = " ++ fmtNumQ (lhs.b - rhs.b)
                ++ ", which is impossible.") := by
  have hnum : lhs.a - rhs.a = 0 := h
  have hrw := solveSingleVar_degenerate lhsRaw rhsRaw lhs rhs h
  refine ⟨?_, ?_, ?_, ?_⟩
  · rw [hrw]; exact degenerateTrail_verification _ _ _ _
  · unfold solveNumericSingle
    dsimp only
    rw [if_pos hnum]
    split <;> rfl
  · intro hc
    have hcn : lhs.b - rhs.b = 0 := by
      have : rhs.b - lhs.b = 0 := hc
      linarith
    rw [hrw]
    unfold degenerateTrail
    rw [if_pos hc]
    unfold solveNumericSingle
    dsimp only
    rw [if_pos hnum, if_pos hcn]
    refine ⟨?_, rfl, ?_, rfl⟩
    · unfold degeneratePriorSteps
      simp only [List.cons_append]
      exact getLast?_cons_ends _ _ _
    · rfl
  · intro hc
    have hcn : lhs.b - rhs.b ≠ 0 := by
      intro hx
      exact hc (by unfold finalRhsConst; linarith)
    rw [hrw]
    unfold degenerateTrail
    rw [if_neg hc]
    unfold solveNumericSingle
    dsimp only
    rw [if_pos hnum, if_neg hcn]
    refine ⟨?_, rfl, ?_, rfl⟩
    · unfold degeneratePriorSteps
      simp only [List.cons_append]
      rw [getLast?_cons_ends]
      rfl
    · rfl

/-- C3 witness: the concrete contradiction `2x - 4 = 2x + 7` from the
spec's scenario list. -/
theorem C3_degenerate_witness :
    finalCoeff ⟨2, -4⟩ ⟨2, 7⟩ = 0 ∧
      ((solveSingleVar "2x - 4" "2x + 7" ⟨2, -4⟩ ⟨2, 7⟩).verification_steps = []
        ∧ (solveNumericSingle "2x - 4" "2x + 7" ⟨2, -4⟩ ⟨2, 7⟩).verification_steps
            = []) :=
  ⟨by with_unfolding_all decide,
    by
      have hmain := C3_degenerate "2x - 4" "2x + 7" ⟨2, -4⟩ ⟨2, 7⟩
        (by with_unfolding_all decide)
      exact ⟨hmain.1, hmain.2.1⟩⟩

/-- C4 counterexample: on the input `2x + 3 = 7` the symbolic and the
numerical mode produce different step sequences (the symbolic engine
subtracts and divides; the numerical engine identifies coefficients and
divides directly), refuting the claim that mode selection never changes
which steps are produced. -/
theorem C4_counterexample :
    (solveSingleVar "2x + 3" "7" ⟨2, 3⟩ ⟨0, 7⟩).steps.map Step.description
      ≠ (solveNumericSingle "2x + 3" "7" ⟨2, 3⟩ ⟨0, 7⟩).steps.map
          Step.description := by
  with_unfolding_all decide

/-- C4 amended: the two modes agree on the computed solution value and on
whether verification is produced (they classify degenerate equations
identically), but the emitted step sequences differ between modes. -/
theorem C4_modes_agree (lhsRaw rhsRaw : String) (lhs rhs : LinExpr) :
    numericSolution lhs rhs = singleVarSolution lhs rhs ∧
      ((solveSingleVar lhsRaw rhsRaw lhs rhs).verification_steps = []
        ↔ (solveNumericSingle lhsRaw rhsRaw lhs rhs).verification_steps = []) := by
  constructor
  · exact numericSolution_eq lhs rhs
  · by_cases h : finalCoeff lhs rhs = 0
    · have hnum : lhs.a - rhs.a = 0 := h
      constructor <;> intro _
      · unfold solveNumericSingle
        dsimp only
        rw [if_pos hnum]
        split <;> rfl
      · rw [solveSingleVar_degenerate lhsRaw rhsRaw lhs rhs h]
        exact degenerateTrail_verification _ _ _ _
    · rw [solveSingleVar_verification lhsRaw rhsRaw lhs rhs h]
      constructor <;> intro hx
      · exact absurd hx (by simp [buildVerificationSteps])
      · exfalso
        have hnum : ¬ lhs.a - rhs.a = 0 := h
        revert hx
        unfold solveNumericSingle
        dsimp only
        rw [if_neg hnum]
        simp

/-- C5 counterexample: the numerical solver returns a trail for the
degenerate contradiction `2x - 4 = 2x + 7` whose summary carries
`validation_status = "pass"` although its verification-step list is
empty (no final comparison holds), and the symbolic engine's trail for
`2x + 3 = 7` carries no `validation_status` field at all. -/
theorem C5_counterexample :
    (solveNumericSingle "2x - 4" "2x + 7" ⟨2, -4⟩ ⟨2, 7⟩).validation_status
        = some "pass" ∧
      (solveNumericSingle "2x - 4" "2x + 7" ⟨2, -4⟩ ⟨2, 7⟩).verification_steps
        = [] ∧
      (solveSingleVar "2x + 3" "7" ⟨2, 3⟩ ⟨0, 7⟩).validation_status = none := by
  with_unfolding_all decide

/-- C5 amended: only the substitution checker computes
`validation_status` from the comparison (`"pass"` iff the substituted
equation value is zero); the numerical solver's summaries carry
`validation_status = "pass"` unconditionally, and the symbolic engine's
summaries (including the nonlinear-rejection trail) carry no
`validation_status` field. -/
theorem C5_validation_status (lhsRaw rhsRaw : String) (lhs rhs : LinExpr)
    (v : ℚ) :
    (solve_substitution lhsRaw rhsRaw lhs rhs v).validation_status
        = some (if lhs.eval v - rhs.eval v = 0 then "pass" else "fail") ∧
      (solveNumericSingle lhsRaw rhsRaw lhs rhs).validation_status
        = some "pass" ∧
      (solveSingleVar lhsRaw rhsRaw lhs rhs).validation_status = none := by
  refine ⟨rfl, ?_, ?_⟩
  · unfold solveNumericSingle
    dsimp only
    split
    · split <;> rfl
    · rfl
  · by_cases h : finalCoeff lhs rhs = 0
    · rw [solveSingleVar_degenerate lhsRaw rhsRaw lhs rhs h]
      exact degenerateTrail_status _ _ _ _
    · unfold solveSingleVar
      dsimp only
      rw [(movePhases_state lhs rhs).1, (movePhases_state lhs rhs).2]
      simp only [if_neg h]

lemma mem_insertSortedChar (a c : Char) (l : List Char) :
    a ∈ insertSortedChar c l ↔ a = c ∨ a ∈ l := by
  induction l with
  | nil => simp [insertSortedChar]
  | cons d ds ih =>
    rw [insertSortedChar]
    split
    · simp only [List.mem_cons]
    · split
      · rename_i h2
        subst h2
        simp only [List.mem_cons]
        tauto
      · simp only [List.mem_cons, ih]
        tauto

lemma takeRun_fst_all (p : Char → Bool) (cs : List Char) :
    ∀ c ∈ (takeRun p cs).1, p c := by
  induction cs with
  | nil => simp [takeRun]
  | cons d ds ih =>
    by_cases h : p d
    · simp only [takeRun, h, if_pos]
      intro c hc
      rcases List.mem_cons.mp hc with h1 | h1
      · subst h1; exact h
      · exact ih c h1
    · simp [takeRun, h]

lemma takeRun_fst_cons (p : Char → Bool) (c : Char) (cs : List Char)
    (h : p c) : (takeRun p (c :: cs)).1 = c :: (takeRun p cs).1 := by
  simp [takeRun, h]

/-- Every token produced by the alphabetic tokenizer is a nonempty run
of letters. -/
lemma alphaTokensGo_facts :
    ∀ (fuel : Nat) (cs : List Char) (tok : List Char),
      tok ∈ alphaTokensGo fuel cs → tok ≠ [] ∧ ∀ c ∈ tok, c.isAlpha := by
  intro fuel
  induction fuel with
  | zero => intro cs tok h; simp [alphaTokensGo] at h
  | succ f ih =>
    intro cs tok h
    cases cs with
    | nil => simp [alphaTokensGo] at h
    | cons c cs' =>
      by_cases ha : c.isAlpha
      · rw [alphaTokensGo, if_pos ha] at h
        rcases List.mem_cons.mp h with h1 | h1
        · subst h1
          rw [takeRun_fst_cons Char.isAlpha c cs' ha]
          exact ⟨by simp, by
            intro d hd
            rcases List.mem_cons.mp hd with h2 | h2
            · subst h2; exact ha
            · exact takeRun_fst_all Char.isAlpha cs' d h2⟩
        · exact ih _ _ h1
      · rw [alphaTokensGo, if_neg ha] at h
        exact ih _ _ h

lemma mem_addToken (a : Char) (acc tok : List Char) :
    a ∈ addToken acc tok ↔ a ∈ acc ∨ (a ∈ tok ∧ a.isAlpha) := by
  induction tok generalizing acc with
  | nil => simp [addToken]
  | cons c cs ih =>
    unfold addToken
    rw [List.foldl_cons]
    by_cases h : c.isAlpha
    · rw [if_pos h]
      rw [show List.foldl _ (insertSortedChar c acc) cs
            = addToken (insertSortedChar c acc) cs from rfl]
      rw [ih]
      rw [mem_insertSortedChar]
      constructor
      · rintro ((rfl | h1) | ⟨h1, h2⟩)
        · exact Or.inr ⟨List.mem_cons_self _ _, h⟩
        · exact Or.inl h1
        · exact Or.inr ⟨List.mem_cons_of_mem _ h1, h2⟩
      · rintro (h1 | ⟨h1, h2⟩)
        · exact Or.inl (Or.inr h1)
        · rcases List.mem_cons.mp h1 with rfl | h3
          · exact Or.inl (Or.inl rfl)
          · exact Or.inr ⟨h3, h2⟩
    · rw [if_neg h]
      rw [show List.foldl _ acc cs = addToken acc cs from rfl]
      rw [ih]
      constructor
      · rintro (h1 | ⟨h1, h2⟩)
        · exact Or.inl h1
        · exact Or.inr ⟨List.mem_cons_of_mem _ h1, h2⟩
      · rintro (h1 | ⟨h1, h2⟩)
        · exact Or.inl h1
        · rcases List.mem_cons.mp h1 with rfl | h3
          · exact absurd h2 (by simp [h])
          · exact Or.inr ⟨h3, h2⟩

lemma mem_collectCands_aux (a : Char) (toks : List (List Char)) :
    ∀ acc : List Char,
      a ∈ toks.foldl
          (fun acc tok =>
            if RESERVED.contains (String.mk tok) then acc else addToken acc tok)
          acc
        ↔ a ∈ acc ∨ ∃ tok ∈ toks,
            ¬ RESERVED.contains (String.mk tok) ∧ a ∈ tok ∧ a.isAlpha := by
  induction toks with
  | nil => intro acc; simp
  | cons t ts ih =>
    intro acc
    rw [List.foldl_cons]
    by_cases h : RESERVED.contains (String.mk t)
    · rw [if_pos h, ih]
      constructor
      · rintro (h1 | ⟨tok, h1, h2⟩)
        · exact Or.inl h1
        · exact Or.inr ⟨tok, List.mem_cons_of_mem _ h1, h2⟩
      · rintro (h1 | ⟨tok, h1, h2⟩)
        · exact Or.inl h1
        · rcases List.mem_cons.mp h1 with rfl | h3
          · exact absurd h h2.1
          · exact Or.inr ⟨tok, h3, h2⟩
    · rw [if_neg h, ih]
      rw [mem_addToken]
      constructor
      · rintro ((h1 | ⟨h1, h2⟩) | ⟨tok, h1, h2⟩)
        · exact Or.inl h1
        · exact Or.inr ⟨t, List.mem_cons_self _ _, h, h1, h2⟩
        · exact Or.inr ⟨tok, List.mem_cons_of_mem _ h1, h2⟩
      · rintro (h1 | ⟨tok, h1, h2⟩)
        · exact Or.inl (Or.inl h1)
        · rcases List.mem_cons.mp h1 with rfl | h3
          · exact Or.inl (Or.inr ⟨h2.2.1, h2.2.2⟩)
          · exact Or.inr ⟨tok, h3, h2⟩

/-- Characterisation of the candidate-variable set: a character is a
candidate exactly when it is a letter of some non-reserved maximal
alphabetic run. -/
lemma mem_detectCandidates (a : Char) (s : String) :
    a ∈ detectCandidates s
      ↔ ∃ tok ∈ alphaTokens (cleanCaret s),
          ¬ RESERVED.contains (String.mk tok) ∧ a ∈ tok ∧ a.isAlpha := by
  unfold detectCandidates collectCands
  rw [mem_collectCands_aux]
  simp

/-- The candidate set is empty exactly when every alphabetic run of the
input is a reserved name. -/
lemma detectCandidates_eq_nil_iff (s : String) :
    detectCandidates s = []
      ↔ ∀ tok ∈ alphaTokens (cleanCaret s),
          RESERVED.contains (String.mk tok) := by
  rw [List.eq_nil_iff_forall_not_mem]
  constructor
  · intro h tok htok
    by_contra hres
    obtain ⟨hne, halpha⟩ := alphaTokensGo_facts _ _ _ htok
    obtain ⟨c, hc⟩ := List.exists_mem_of_ne_nil tok hne
    exact h c ((mem_detectCandidates c s).mpr
      ⟨tok, htok, hres, hc, halpha c hc⟩)
  · intro h c hc
    obtain ⟨tok, htok, hres, _, _⟩ := (mem_detectCandidates c s).mp hc
    exact hres (h tok htok)

/-- C8 counterexample: lowercase `e` is not in the reserved set (only
capital `E` is), so the input `e + 1 = 2` — for which the claim predicts
the no-variable-found failure after discarding `e` — instead detects `e`
as the unknown; the uppercase variant `E + 1 = 2` does fail. -/
theorem C8_counterexample :
    detect_variables "e + 1 = 2" = Except.ok ['e'] ∧
      detect_variables "E + 1 = 2" = Except.error noVariableMsg := by
  constructor
  · with_unfolding_all rfl
  · with_unfolding_all rfl

/-- C8 amended: variable detection extracts maximal alphabetic runs,
discards the reserved names `sin, cos, tan, log, ln, exp, sqrt, pi, PI,
Pi, abs` and capital `E` (lowercase `e` is treated as a variable), treats
each remaining letter of a token as an independent single-character
unknown, and fails with the no-variable-found error exactly when every
alphabetic run is reserved (zero candidate letters remain). -/
theorem C8_detect_variables (s : String) :
    (detect_variables s = Except.error noVariableMsg
        ↔ ∀ tok ∈ alphaTokens (cleanCaret s),
            RESERVED.contains (String.mk tok)) ∧
      ∀ c : Char,
        c ∈ detectCandidates s
          ↔ ∃ tok ∈ alphaTokens (cleanCaret s),
              ¬ RESERVED.contains (String.mk tok) ∧ c ∈ tok ∧ c.isAlpha := by
  constructor
  · rw [← detectCandidates_eq_nil_iff]
    unfold detect_variables
    constructor
    · intro h
      by_cases hc : (detectCandidates s).isEmpty
      · exact List.isEmpty_iff.mp hc
      · rw [if_neg hc] at h
        exact absurd h (by simp)
    · intro h
      rw [if_pos (List.isEmpty_iff.mpr h)]
  · intro c
    exact mem_detectCandidates c s

/-- C10: in both solver entry points the variable detection runs before
the `=`-presence check: a character-valid input with no candidate
variable yields the no-variable outcome even without any `=`, and the
missing-`=` outcome can only arise when a candidate variable was
detected. -/
theorem C10_detection_order (s : String) :
    (badChars (normalizeInput s) = [] →
        detectCandidates
            (String.intercalate " " (splitEquations (normalizeInput s))) = [] →
        solveEntry s = EntryOutcome.noVariable) ∧
      (solveEntry s = EntryOutcome.missingEquals →
        detectCandidates
            (String.intercalate " " (splitEquations (normalizeInput s))) ≠ []) := by
  constructor
  · intro h1 h2
    unfold solveEntry
    dsimp only
    rw [if_neg (by simp [h1])]
    unfold detect_variables
    rw [if_pos (List.isEmpty_iff.mpr h2)]
  · intro hout hcand
    revert hout
    unfold solveEntry
    dsimp only
    by_cases h1 : (badChars (normalizeInput s)).isEmpty
    · rw [if_neg (by simp [h1])]
      unfold detect_variables
      rw [if_pos (List.isEmpty_iff.mpr hcand)]
      simp
    · rw [if_pos (by simpa using h1)]
      simp

/-- C10 witness: the input `1 + 2` has valid characters, no candidate
variable and no `=`, and the entry pipeline reports the no-variable
outcome. -/
theorem C10_detection_order_witness :
    badChars (normalizeInput "1 + 2") = [] ∧
      detectCandidates
          (String.intercalate " " (splitEquations (normalizeInput "1 + 2"))) = [] ∧
      solveEntry "1 + 2" = EntryOutcome.noVariable :=
  ⟨by with_unfolding_all decide, by with_unfolding_all decide,
    (C10_detection_order "1 + 2").1 (by with_unfolding_all decide)
      (by with_unfolding_all decide)⟩

/-- C6 counterexample: for the input `sqrt(x) = 2` the combined
expression `sqrt(x) - 2` is not a polynomial in `x`, contains `x`, is not
a listed transcendental function, and has no variable denominator — so
the classifier reaches the `Could not determine the degree` error branch,
refuting the claim that the branch is unreachable. -/
theorem C6_counterexample :
    classifySingleVar
        (SymExpr.add (SymExpr.sqrtE SymExpr.var) (SymExpr.num (-2)))
      = Classification.undetermined := by
  decide

/-- C6 amended: the classifier returns one of the definite outcomes
(linear/degenerate or a nonlinear reason) whenever the combined
expression is a polynomial in the variable, or is variable-free, or
contains a listed transcendental of the variable, or has the variable in
a denominator; the `Could not determine the degree` error branch is
reachable exactly outside these cases (e.g. `sqrt(x) = 2`). -/
theorem C6_classifier_total (e : SymExpr)
    (h : polyDegree? e ≠ none ∨ hasVar e = false
      ∨ hasTranscendental e = true ∨ hasVarInDenominator e = true) :
    classifySingleVar e ≠ Classification.undetermined := by
  unfold classifySingleVar
  cases hn : polyDegree? e with
  | some d =>
    dsimp only
    split_ifs
    all_goals simp
  | none =>
    dsimp only
    rcases h with h | h | h | h
    · exact absurd hn h
    all_goals split_ifs
    all_goals simp_all

/-- C6 witness: the quadratic `x² + 1` is a polynomial of degree 2, so
the classifier does not reach the error branch there. -/
theorem C6_classifier_total_witness :
    (polyDegree? (SymExpr.add (SymExpr.intPow SymExpr.var 2) (SymExpr.num 1))
          ≠ none
        ∨ hasVar (SymExpr.add (SymExpr.intPow SymExpr.var 2) (SymExpr.num 1))
            = false
        ∨ hasTranscendental
              (SymExpr.add (SymExpr.intPow SymExpr.var 2) (SymExpr.num 1))
            = true
        ∨ hasVarInDenominator
              (SymExpr.add (SymExpr.intPow SymExpr.var 2) (SymExpr.num 1))
            = true) ∧
      classifySingleVar
          (SymExpr.add (SymExpr.intPow SymExpr.var 2) (SymExpr.num 1))
        ≠ Classification.undetermined :=
  ⟨Or.inl (by decide),
    C6_classifier_total _ (Or.inl (by decide))⟩

/-- C9 counterexample: the raw-input formatter nests fraction markers on
the input `(x/2)/3 = 1` — the parenthesised-fraction pass produces
`⟦x/2|3⟧` and the simple-fraction pass then rewrites inside the marker,
so the trail's first step displays `⟦⟦x|2⟧|3⟧ = 1`, refuting the
no-nesting invariant. -/
theorem C9_counterexample :
    format_input_str "(x/2)/3" = "⟦⟦x|2⟧|3⟧" ∧
      (solveSingleVar "(x/2)/3" "1" ⟨1/6, 0⟩ ⟨0, 1⟩).steps.head?
        = some ⟨"Starting with the original equation", "⟦⟦x|2⟧|3⟧ = 1"⟩ ∧
      nestedMarker "⟦⟦x|2⟧|3⟧ = 1" = true := by
  refine ⟨by decide, ?_, by decide⟩
  decide

/-- C9 amended: the engine's divide step does avoid a stacked marker in
the divisor position — whenever the coefficient itself renders as a
fraction the step uses `÷` notation — but the global no-nesting
invariant fails: nested markers arise from the raw-input formatter (and
from a fractional dividend), as the counterexample shows. -/
theorem C9_divisor_rule (lhs rhs : LinExpr) (c : ℚ) (h : c.den ≠ 1) :
    divideExprString lhs rhs c
      = formatLin lhs ++ " ÷ " ++ formatExprRat c ++ " = "
        ++ formatLin rhs ++ " ÷ " ++ formatExprRat c := by
  unfold divideExprString
  rw [if_pos]
  unfold containsFracOpen formatExprRat
  rw [if_neg h]
  unfold fracMark
  simp

/-- C9 witness: dividing by the fractional coefficient `3/2` produces the
`÷` form, which contains no nested marker. -/
theorem C9_divisor_rule_witness :
    ((3 : ℚ) / 2).den ≠ 1 ∧
      divideExprString ⟨3 / 2, 0⟩ ⟨0, 1⟩ (3 / 2)
        = "⟦3x|2⟧ ÷ ⟦3|2⟧ = 1 ÷ ⟦3|2⟧" ∧
      nestedMarker "⟦3x|2⟧ ÷ ⟦3|2⟧ = 1 ÷ ⟦3|2⟧" = false := by
  refine ⟨by decide, ?_, by decide⟩
  rw [C9_divisor_rule ⟨3 / 2, 0⟩ ⟨0, 1⟩ (3 / 2) (by decide)]
  decide

lemma cramer_sat (e1 e2 : Eq2) (hd : det2 e1 e2 ≠ 0) :
    e1.sat ((e1.c * e2.b - e2.c * e1.b) / det2 e1 e2)
        ((e1.a * e2.c - e2.a * e1.c) / det2 e1 e2) ∧
      e2.sat ((e1.c * e2.b - e2.c * e1.b) / det2 e1 e2)
        ((e1.a * e2.c - e2.a * e1.c) / det2 e1 e2) := by
  unfold Eq2.sat det2 at *
  constructor <;> (field_simp; ring)

lemma cramer_unique (e1 e2 : Eq2) (hd : det2 e1 e2 ≠ 0) (x y : ℚ)
    (hs1 : e1.sat x y) (hs2 : e2.sat x y) :
    x = (e1.c * e2.b - e2.c * e1.b) / det2 e1 e2 ∧
      y = (e1.a * e2.c - e2.a * e1.c) / det2 e1 e2 := by
  unfold Eq2.sat det2 at *
  constructor
  · rw [eq_div_iff hd]
    linear_combination e2.b * hs1 - e1.b * hs2
  · rw [eq_div_iff hd]
    linear_combination e1.a * hs2 - e2.a * hs1

lemma singular_no_solution (e1 e2 : Eq2) (hd : det2 e1 e2 = 0)
    (hc : ¬ (e1.a * e2.c = e2.a * e1.c ∧ e1.b * e2.c = e2.b * e1.c))
    (x y : ℚ) : ¬ (e1.sat x y ∧ e2.sat x y) := by
  rintro ⟨hs1, hs2⟩
  unfold Eq2.sat det2 at *
  refine hc ⟨?_, ?_⟩
  · linear_combination e2.a * hs1 - e1.a * hs2 + y * hd
  · linear_combination e2.b * hs1 - e1.b * hs2 - x * hd

lemma dependent_family (e1 e2 : Eq2) (hd : det2 e1 e2 = 0)
    (hca : e1.a * e2.c = e2.a * e1.c) (hcb : e1.b * e2.c = e2.b * e1.c)
    (h1 : ¬ (e1.a = 0 ∧ e1.b = 0)) (t : ℚ) :
    ∃ x y, e1.sat x y ∧ e2.sat x y ∧ (x = t ∨ y = t) := by
  unfold Eq2.sat det2 at *
  by_cases ha : e1.a = 0
  · have hb : e1.b ≠ 0 := fun hb => h1 ⟨ha, hb⟩
    refine ⟨t, e1.c / e1.b, ?_, ?_, Or.inl rfl⟩
    · rw [ha]
      field_simp
    · have ha2 : e2.a = 0 := by
        have hthis := hd
        rw [ha] at hthis
        simp at hthis
        rcases hthis with h | h
        · exact h
        · exact absurd h hb
      rw [ha2]
      field_simp
      linear_combination -hcb
  · refine ⟨(e1.c - e1.b * t) / e1.a, t, ?_, ?_, Or.inr rfl⟩
    · field_simp
    · field_simp
      linear_combination t * hd - hca

/-- C7: for a system of two linear equations in two unknowns (each a
genuine line): non-parallel lines yield a trail whose final answer gives
exactly one value for each unknown — the unique simultaneous solution;
parallel distinct lines yield the inconsistent outcome with the
elimination step shown, no exception, and an empty verification list;
coincident lines yield the dependent (free-variable) outcome, with a
solution for every value of the parameter. -/
theorem C7_system_two_by_two (raw1 raw2 : String) (e1 e2 : Eq2)
    (h1 : ¬ (e1.a = 0 ∧ e1.b = 0)) (h2 : ¬ (e2.a = 0 ∧ e2.b = 0)) :
    (det2 e1 e2 ≠ 0 →
      ∃ x0 y0,
        solve2 e1 e2 = SysOutcome.unique x0 y0 ∧
        (solveSystem2 raw1 raw2 e1 e2).final_answer
          = "x = " ++ formatExprRat x0 ++ "\n" ++ "y = " ++ formatExprRat y0 ∧
        e1.sat x0 y0 ∧ e2.sat x0 y0 ∧
        ∀ x y, e1.sat x y → e2.sat x y → x = x0 ∧ y = y0) ∧
    (det2 e1 e2 = 0 →
      ¬ (e1.a * e2.c = e2.a * e1.c ∧ e1.b * e2.c = e2.b * e1.c) →
      solve2 e1 e2 = SysOutcome.inconsistent ∧
        (solveSystem2 raw1 raw2 e1 e2).verification_steps = [] ∧
        "Subtract equation (1) from equation (2)"
          ∈ (solveSystem2 raw1 raw2 e1 e2).steps.map Step.description ∧
        ∀ x y, ¬ (e1.sat x y ∧ e2.sat x y)) ∧
    (det2 e1 e2 = 0 →
      (e1.a * e2.c = e2.a * e1.c ∧ e1.b * e2.c = e2.b * e1.c) →
      (∃ xB pc qc, solve2 e1 e2 = SysOutcome.dependent xB pc qc) ∧
        ∀ t : ℚ, ∃ x y, e1.sat x y ∧ e2.sat x y ∧ (x = t ∨ y = t)) := by
  refine ⟨?_, ?_, ?_⟩
  · intro hd
    refine ⟨(e1.c * e2.b - e2.c * e1.b) / det2 e1 e2,
      (e1.a * e2.c - e2.a * e1.c) / det2 e1 e2, ?_, ?_, ?_, ?_, ?_⟩
    · unfold solve2
      rw [if_pos hd]
    · unfold solveSystem2
      rw [show solve2 e1 e2 = SysOutcome.unique
          ((e1.c * e2.b - e2.c * e1.b) / det2 e1 e2)
          ((e1.a * e2.c - e2.a * e1.c) / det2 e1 e2) from by
        unfold solve2; rw [if_pos hd]]
    · exact (cramer_sat e1 e2 hd).1
    · exact (cramer_sat e1 e2 hd).2
    · intro x y hs1 hs2
      exact cramer_unique e1 e2 hd x y hs1 hs2
  · intro hd hc
    have hsolve : solve2 e1 e2 = SysOutcome.inconsistent := by
      unfold solve2
      rw [if_neg (by simpa using hd), if_pos]
      rcases not_and_or.mp hc with h | h
      · exact Or.inr (Or.inr (Or.inl h))
      · exact Or.inr (Or.inr (Or.inr h))
    refine ⟨hsolve, ?_, ?_, singular_no_solution e1 e2 hd hc⟩
    · unfold solveSystem2
      rw [hsolve]
    · unfold solveSystem2
      rw [hsolve]
      simp
  · intro hd hc
    have hnotinc :
        ¬ ((e1.a = 0 ∧ e1.b = 0 ∧ e1.c ≠ 0) ∨ (e2.a = 0 ∧ e2.b = 0 ∧ e2.c ≠ 0)
          ∨ e1.a * e2.c ≠ e2.a * e1.c ∨ e1.b * e2.c ≠ e2.b * e1.c) := by
      push_neg
      refine ⟨?_, ?_, hc.1, hc.2⟩
      · intro ha hb
        exact absurd ⟨ha, hb⟩ h1
      · intro ha hb
        exact absurd ⟨ha, hb⟩ h2
    constructor
    · unfold solve2
      rw [if_neg (by simpa using hd), if_neg hnotinc]
      by_cases ha1 : e1.a ≠ 0
      · exact ⟨true, -(e1.b) / e1.a, e1.c / e1.a, by rw [if_pos ha1]⟩
      · rw [if_neg ha1]
        by_cases ha2 : e2.a ≠ 0
        · exact ⟨true, -(e2.b) / e2.a, e2.c / e2.a, by rw [if_pos ha2]⟩
        · rw [if_neg ha2]
          by_cases hb1 : e1.b ≠ 0
          · exact ⟨false, 0, e1.c / e1.b, by rw [if_pos hb1]⟩
          · exact absurd ⟨not_ne_iff.mp ha1, not_ne_iff.mp hb1⟩ h1
    · exact dependent_family e1 e2 hd hc.1 hc.2 h1

/-- C7 witness: the spec's concrete system `x + y = 10, x - y = 2`
(non-parallel lines) satisfies the line hypotheses and its unique
solution branch applies. -/
theorem C7_system_two_by_two_witness :
    (¬ ((Eq2.mk 1 1 10).a = 0 ∧ (Eq2.mk 1 1 10).b = 0)) ∧
      (¬ ((Eq2.mk 1 (-1) 2).a = 0 ∧ (Eq2.mk 1 (-1) 2).b = 0)) ∧
      det2 (Eq2.mk 1 1 10) (Eq2.mk 1 (-1) 2) ≠ 0 ∧
      ∃ x0 y0,
        solve2 (Eq2.mk 1 1 10) (Eq2.mk 1 (-1) 2) = SysOutcome.unique x0 y0 ∧
        (solveSystem2 "x + y = 10" "x - y = 2"
            (Eq2.mk 1 1 10) (Eq2.mk 1 (-1) 2)).final_answer
          = "x = " ++ formatExprRat x0 ++ "\n" ++ "y = " ++ formatExprRat y0 ∧
        (Eq2.mk 1 1 10).sat x0 y0 ∧ (Eq2.mk 1 (-1) 2).sat x0 y0 ∧
        ∀ x y, (Eq2.mk 1 1 10).sat x y → (Eq2.mk 1 (-1) 2).sat x y →
          x = x0 ∧ y = y0 :=
  ⟨by decide, by decide, by decide,
    (C7_system_two_by_two "x + y = 10" "x - y = 2"
        (Eq2.mk 1 1 10) (Eq2.mk 1 (-1) 2)
        (by decide) (by decide)).1 (by decide)⟩

/-- C2: solving `2x + 3 = 7` end to end parses the sides to `2x + 3` and
`7`, produces the isolation step list (subtract 3, simplify, divide by 2,
simplify), the final answer `x = 2`, and a non-empty verification list
whose final comparison of the evaluated sides succeeds. -/
theorem C2_two_x_plus_three :
    solveLinearSingle "2x + 3 = 7"
        = Except.ok (solveSingleVar "2x + 3" "7" ⟨2, 3⟩ ⟨0, 7⟩) ∧
      (solveSingleVar "2x + 3" "7" ⟨2, 3⟩ ⟨0, 7⟩).final_answer = "x = 2" ∧
      (solveSingleVar "2x + 3" "7" ⟨2, 3⟩ ⟨0, 7⟩).steps.map Step.description
        = ["Starting with the original equation",
           "Subtract 3 from both sides",
           "Simplify both sides",
           "Divide both sides by 2",
           "Simplify to get the answer"] ∧
      (solveSingleVar "2x + 3" "7" ⟨2, 3⟩ ⟨0, 7⟩).verification_steps ≠ [] ∧
      (solveSingleVar "2x + 3" "7" ⟨2, 3⟩ ⟨0, 7⟩).verification_steps.getLast?
        = some ⟨"Compare both sides", "LHS = 7, RHS = 7\nLHS = RHS  ✓"⟩ ∧
      LinExpr.eval ⟨2, 3⟩ (singleVarSolution ⟨2, 3⟩ ⟨0, 7⟩)
        = LinExpr.eval ⟨0, 7⟩ (singleVarSolution ⟨2, 3⟩ ⟨0, 7⟩) := by
  refine ⟨?_, ?_, ?_, ?_, ?_, ?_⟩
  · have h1 : solveEntry "2x + 3 = 7"
        = EntryOutcome.singleVar "2x + 3" "7" ['x'] := by
      with_unfolding_all decide
    have h2 : parse_side "2x + 3" = some ⟨2, 3⟩ := by
      with_unfolding_all decide
    have h3 : parse_side "7" = some ⟨0, 7⟩ := by
      with_unfolding_all decide
    unfold solveLinearSingle
    rw [h1]
    dsimp only
    rw [h2, h3]
  · with_unfolding_all decide
  · with_unfolding_all decide
  · with_unfolding_all decide
  · decide
  · with_unfolding_all decide

end SymSolver
